import Mathlib

/-
Verification development for the lightwatcher BIRD gateway.

The Rust sources are shallowly embedded: pure parsing functions become Lean
functions on lists of characters and lines, machine integers become Nat with
explicit reduction modulo 2^32 where overflow matters, fallible code returns
Option (where a Rust panic or a propagated error would abort the computation,
the model yields none), and the two stateful actors (connection pool, rate
limiter) become explicit step functions and step relations.

The regex crate used by the parsers is embedded as a small backtracking
matcher with Perl style leftmost-first preference semantics (greedy and lazy
repetition, optional groups, capture groups). The concrete patterns from the
sources are transcribed into the matcher AST. The matcher takes a fuel
argument for structural recursion; fuel is chosen generously and no theorem
depends on the matcher internals, only on concrete evaluations.
-/

namespace LW

/-! ## Character and list-of-characters utilities (Rust str primitives) -/

/-- Model of Rust char classification [0-9]. -/
def isDigitC (c : Char) : Bool := c.isDigit

/-- Model of the regex word class backslash-w restricted to ASCII. -/
def isWordC (c : Char) : Bool := c.isAlphanum || c = '_'

/-- Model of the regex whitespace class. -/
def isSpaceC (c : Char) : Bool := c.isWhitespace

/-- List-of-chars prefix test, model of str::starts_with. -/
def listIsPrefix : List Char → List Char → Bool
  | [], _ => true
  | _ :: _, [] => false
  | p :: ps, c :: cs => if p = c then listIsPrefix ps cs else false

/-- String prefix test on the underlying character lists. -/
def strStarts (s : String) (p : String) : Bool := listIsPrefix p.data s.data

/-- Infix (substring) test on character lists, model of str::contains. -/
def listHasInfix (n : List Char) : List Char → Bool
  | [] => listIsPrefix n []
  | c :: cs => listIsPrefix n (c :: cs) || listHasInfix n cs

/-- Substring containment on strings. -/
def strHasSub (s : String) (n : String) : Bool := listHasInfix n.data s.data

/-- Drop leading characters satisfying p, used by trim and trim_start. -/
def dropWhileC (p : Char → Bool) : List Char → List Char
  | [] => []
  | c :: cs => if p c then dropWhileC p cs else c :: cs

/-- Model of str::trim (both ends, whitespace). -/
def listTrim (s : List Char) : List Char :=
  (dropWhileC isSpaceC (dropWhileC isSpaceC s).reverse).reverse

/-- Model of str::trim_start. -/
def listTrimStart (s : List Char) : List Char := dropWhileC isSpaceC s

/-- Split on a separator character, keeping empty segments,
model of str::split with a char pattern. -/
def splitOnC (sep : Char) : List Char → List (List Char)
  | [] => [[]]
  | c :: cs =>
      let r := splitOnC sep cs
      if c = sep then [] :: r
      else match r with
        | [] => [[c]]
        | seg :: rest => (c :: seg) :: rest

/-- Split on whitespace dropping empty tokens, model of str::split_whitespace. -/
def splitWhitespace (s : List Char) : List (List Char) :=
  ((splitOnC ' ' s).flatMap (fun seg => splitOnC '\t' seg)).filter (fun t => !t.isEmpty)

/-- Lowercase a character list, model of str::to_lowercase on ASCII input. -/
def listLower (s : List Char) : List Char := s.map Char.toLower

/-- Model of u32::from_str: an optional leading plus sign followed by at
least one digit, value below 2^32; everything else is an error (none). -/
def parseU32 (s : List Char) : Option Nat :=
  let t := match s with
    | c :: cs => if c = '+' then cs else c :: cs
    | [] => []
  if t.isEmpty then none
  else if t.all isDigitC then
    let v := t.foldl (fun a c => a * 10 + (c.toNat - 48)) 0
    if v < 2 ^ 32 then some v else none
  else none

/-- Association list lookup. -/
def alistGet {α : Type} (m : List (String × α)) (k : String) : Option α :=
  match m with
  | [] => none
  | (k2, v) :: rest => if k2 = k then some v else alistGet rest k

/-- Association list lookup with default. -/
def alistGetD {α : Type} (m : List (String × α)) (k : String) (d : α) : α :=
  (alistGet m k).getD d

/-- Key membership in an association list. -/
def alistHas {α : Type} (m : List (String × α)) (k : String) : Bool :=
  (alistGet m k).isSome

/-- Insert or replace a binding, model of HashMap::insert. The list keeps
first-insertion order; a replaced key keeps its position. -/
def alistPut {α : Type} (m : List (String × α)) (k : String) (v : α) :
    List (String × α) :=
  match m with
  | [] => [(k, v)]
  | (k2, v2) :: rest =>
      if k2 = k then (k2, v) :: rest else (k2, v2) :: alistPut rest k v

/-- Update the value at a key in place, identity when the key is absent. -/
def alistModify {α : Type} (m : List (String × α)) (k : String) (f : α → α) :
    List (String × α) :=
  match m with
  | [] => []
  | (k2, v2) :: rest =>
      if k2 = k then (k2, f v2) :: rest else (k2, v2) :: alistModify rest k f

/-- Insert a default value when the key is absent (appending, which models
first-insertion iteration order), model of Entry::or_insert. -/
def alistEnsure {α : Type} (m : List (String × α)) (k : String) (d : α) :
    List (String × α) :=
  if alistHas m k then m else m ++ [(k, d)]

/-! ## Regex engine

A backtracking matcher over an AST covering exactly the constructs used by
the lightwatcher patterns: character predicates, concatenation, alternation,
greedy and lazy optional, greedy and lazy repetition of a character
predicate, capture groups and the end anchor. Matching is CPS with a first
success cut, which reproduces leftmost-first (Perl) preference order, the
semantics the regex crate guarantees. -/

inductive RE where
  | eps : RE
  | pcls (p : Char → Bool) : RE
  | cat (a b : RE) : RE
  | alt (a b : RE) : RE
  | opt (greedy : Bool) (a : RE) : RE
  | star (greedy : Bool) (p : Char → Bool) : RE
  | group (n : Nat) (a : RE) : RE
  | eol : RE

/-- Captured groups: group index with captured characters, newest first. -/
abbrev Caps : Type := List (Nat × List Char)

/-- Lookup of a capture group result. -/
def capGet (caps : Caps) (n : Nat) : Option (List Char) :=
  match caps with
  | [] => none
  | (m, s) :: rest => if m = n then some s else capGet rest n

/-- One or more repetitions of a character class. -/
def RE.plus (greedy : Bool) (p : Char → Bool) : RE :=
  RE.cat (RE.pcls p) (RE.star greedy p)

/-- Literal character. -/
def RE.ch (c : Char) : RE := RE.pcls (fun x => x = c)

/-- Literal string. -/
def RE.lit (s : String) : RE :=
  s.data.foldr (fun c r => RE.cat (RE.ch c) r) RE.eps

/-- Concatenation of a list of parts. -/
def RE.seq (l : List RE) : RE := l.foldr RE.cat RE.eps

/-- The backtracking matcher in CPS. The continuation receives the remaining
input and the captures; the first success wins, later alternatives are only
tried when everything downstream failed, which yields leftmost-first
semantics. Fuel bounds the recursion depth; all uses supply ample fuel. -/
def RE.m {α : Type} : Nat → RE → List Char →
    (List Char → Caps → Option α) → Caps → Option α
  | 0, _, _, _, _ => none
  | _ + 1, .eps, s, k, caps => k s caps
  | _ + 1, .pcls p, s, k, caps =>
      match s with
      | [] => none
      | c :: rest => if p c then k rest caps else none
  | fuel + 1, .cat a b, s, k, caps =>
      RE.m fuel a s (fun s2 c2 => RE.m fuel b s2 k c2) caps
  | fuel + 1, .alt a b, s, k, caps =>
      (RE.m fuel a s k caps).orElse (fun _ => RE.m fuel b s k caps)
  | fuel + 1, .opt g a, s, k, caps =>
      if g then (RE.m fuel a s k caps).orElse (fun _ => k s caps)
      else (k s caps).orElse (fun _ => RE.m fuel a s k caps)
  | fuel + 1, .star g p, s, k, caps =>
      match s with
      | [] => k [] caps
      | c :: rest =>
          if g then
            (if p c then RE.m fuel (.star g p) rest k caps else none).orElse
              (fun _ => k (c :: rest) caps)
          else
            (k (c :: rest) caps).orElse
              (fun _ => if p c then RE.m fuel (.star g p) rest k caps else none)
  | fuel + 1, .group n a, s, k, caps =>
      RE.m fuel a s
        (fun s2 c2 => k s2 ((n, s.take (s.length - s2.length)) :: c2)) caps
  | _ + 1, .eol, s, k, caps =>
      match s with
      | [] => k [] caps
      | _ :: _ => none

/-- Fuel that is ample for every pattern in this development. -/
def reFuel (s : List Char) : Nat := 400 * (s.length + 2)

/-- Unanchored search, model of Regex::captures: try each start position
left to right and return the captures of the first match, together with the
input remaining after the match (needed by captures_iter). -/
def reSearch (re : RE) : List Char → Option (Caps × List Char)
  | [] => RE.m (reFuel []) re [] (fun rest caps => some (caps, rest)) []
  | c :: cs =>
      (RE.m (reFuel (c :: cs)) re (c :: cs)
          (fun rest caps => some (caps, rest)) []).orElse
        (fun _ => reSearch re cs)

/-- Model of Regex::captures on a string: the named groups of the leftmost
match, or none. -/
def reCaptures (re : RE) (s : String) : Option Caps :=
  (reSearch re s.data).map Prod.fst

/-- Model of Regex::is_match. -/
def reIsMatch (re : RE) (s : String) : Bool := (reSearch re s.data).isSome

/-- Model of Regex::captures_iter: repeated leftmost search, continuing
after the end of each match (advancing one character on an empty match, as
the regex crate does). Fuel is the input length. -/
def reIterGo (re : RE) : Nat → List Char → List Caps
  | 0, _ => []
  | fuel + 1, s =>
      match reSearch re s with
      | none => []
      | some (caps, rest) =>
          if rest.length = s.length then
            match s with
            | [] => [caps]
            | _ :: cs => caps :: reIterGo re fuel cs
          else caps :: reIterGo re fuel rest

/-- Model of Regex::captures_iter on a string. -/
def reIter (re : RE) (s : List Char) : List Caps :=
  reIterGo re (s.length + 1) s

/-! ## Data model (bird.rs) -/

/-- Daemon status record. -/
structure BirdStatus where
  current_server : String := ""
  last_reboot : String := ""
  last_reconfig : String := ""
  message : String := ""
  router_id : String := ""
  version : String := ""
  deriving DecidableEq, Repr

/-- Mapping label to u32 count, model of the RoutesCount HashMap. The list
keeps first-insertion order and, by construction, has no duplicate keys. -/
abbrev RoutesCount : Type := List (String × Nat)

/-- Mapping field to optional u32, model of RouteChangeStats. -/
abbrev RouteChangeStats : Type := List (String × Option Nat)

/-- Per channel change stats. -/
structure RouteChanges where
  import_updates : RouteChangeStats := []
  import_withdraws : RouteChangeStats := []
  export_updates : RouteChangeStats := []
  export_withdraws : RouteChangeStats := []

/-- Channel record. -/
structure Channel where
  state : String := ""
  import_state : String := ""
  export_state : String := ""
  table : String := ""
  peer_table : String := ""
  preference : Nat := 0
  input_filter : String := ""
  output_filter : String := ""
  routes_count : RoutesCount := []
  route_change_stats : RouteChanges := {}
  bgp_next_hop : String := ""

/-- Per channel map, model of the ChannelMap HashMap; the list keeps
first-insertion order. Iteration order of the Rust HashMap is modelled
separately by an explicit reordering where it matters. -/
abbrev ChannelMap : Type := List (String × Channel)

/-- Protocol record. -/
structure Protocol where
  id : String := ""
  bird_protocol : String := ""
  address : String := ""
  asn : Nat := 0
  state : String := ""
  description : String := ""
  routes : RoutesCount := []
  channels : ChannelMap := []
  since : String := ""
  state_changed : String := ""
  last_error : String := ""
  table : String := ""
  peer_table : String := ""

/-- BGP attributes of a route. -/
structure BGPInfo where
  origin : String := ""
  as_path : List String := []
  next_hop : String := ""
  communities : List (Nat × Nat) := []
  large_communities : List (Nat × Nat × Nat) := []
  ext_communities : List (String × String × String) := []
  local_pref : String := ""
  med : String := ""
  otc : Option String := none
  deriving DecidableEq, Repr

/-- Route record. -/
structure Route where
  neighbor_id : Option String := none
  network : String := ""
  interface : String := ""
  gateway : String := ""
  metric : Nat := 0
  bgp : BGPInfo := {}
  age : String := ""
  route_type : List String := []
  primary : Bool := false
  learnt_from : Option String := none
  deriving DecidableEq, Repr

instance : Inhabited Route := ⟨{}⟩

/-! ## Concrete patterns transcribed from the sources -/

/-- Any character, the regex dot (inputs carry no newline). -/
def dotC (c : Char) : Bool := c != '\n'

/-- Class [0-9a-f:./] from RE_ROUTE_HEADER. -/
def prefixClsC (c : Char) : Bool :=
  isDigitC c || (97 ≤ c.toNat && c.toNat ≤ 102) || c = ':' || c = '.' || c = '/'

/-- Class [0-9a-f:.] from RE_GATEWAY_INTERFACE. -/
def gatewayClsC (c : Char) : Bool :=
  isDigitC c || (97 ≤ c.toNat && c.toNat ≤ 102) || c = ':' || c = '.'

/-- Class of uptime characters [digits - : whitespace] from
RE_PROTOCOL_HEADER. -/
def uptimeClsC (c : Char) : Bool :=
  isDigitC c || c = '-' || c = ':' || isSpaceC c

/-- Class of age characters [digits - : . whitespace] from RE_ROUTE_HEADER. -/
def ageClsC (c : Char) : Bool :=
  isDigitC c || c = '-' || c = ':' || c = '.' || isSpaceC c

/-- Class [whitespace word] of RE_KEY_VALUE keys in protocols.rs. -/
def keyClsC (c : Char) : Bool := isSpaceC c || isWordC c

/-- Class [whitespace word dot] of RE_KEY_VALUE keys in routes.rs. -/
def keyDotClsC (c : Char) : Bool := isSpaceC c || isWordC c || c = '.'

/-- protocols.rs RE_KEY_VALUE: lazy dots, whitespace, key, colon,
whitespace, value. Group 1 is the key, group 2 the value. -/
def re_KEY_VALUE : RE :=
  RE.seq [RE.star false dotC, RE.plus true isSpaceC,
    RE.group 1 (RE.plus true keyClsC), RE.ch ':', RE.plus true isSpaceC,
    RE.group 2 (RE.plus true dotC)]

/-- routes.rs RE_KEY_VALUE, identical except the key class admits a dot. -/
def re_KEY_VALUE_ROUTES : RE :=
  RE.seq [RE.star false dotC, RE.plus true isSpaceC,
    RE.group 1 (RE.plus true keyDotClsC), RE.ch ':', RE.plus true isSpaceC,
    RE.group 2 (RE.plus true dotC)]

/-- RE_PROTOCOL_CHANNEL: greedy dots, space, C or c, literal channel, space,
captured rest. Group 1 is the channel name. -/
def re_PROTOCOL_CHANNEL : RE :=
  RE.seq [RE.star true dotC, RE.ch ' ',
    RE.pcls (fun c => c = 'C' || c = 'c'), RE.lit "hannel ",
    RE.group 1 (RE.star true dotC)]

/-- RE_PROTOCOL_HEADER. Groups: 1 protocol, 2 type, 3 state, 4 uptime,
5 info; the fractional-seconds group of the source is not captured there
and is modelled as a plain optional. -/
def re_PROTOCOL_HEADER : RE :=
  RE.seq [RE.lit "1002-", RE.group 1 (RE.plus true isWordC),
    RE.plus true isSpaceC, RE.group 2 (RE.plus true isWordC),
    RE.plus true isSpaceC, RE.star false dotC, RE.plus true isSpaceC,
    RE.group 3 (RE.plus true isWordC), RE.plus true isSpaceC,
    RE.group 4 (RE.plus true uptimeClsC),
    RE.opt true (RE.seq [RE.ch '.', RE.plus true isDigitC]),
    RE.plus false isSpaceC, RE.group 5 (RE.star true dotC), RE.eol]

/-- RE_ROUTE_HEADER. Groups: 1 prefix, 2 type, 3 from_protocol, 4 age,
5 learnt_from, 6 primary, 7 metric. -/
def re_ROUTE_HEADER : RE :=
  RE.seq [RE.star false dotC,
    RE.opt true (RE.group 1 (RE.plus true prefixClsC)),
    RE.plus true isSpaceC, RE.group 2 (RE.plus true isWordC),
    RE.plus true isSpaceC, RE.ch '[',
    RE.group 3 (RE.star false dotC), RE.plus true isSpaceC,
    RE.group 4 (RE.plus true ageClsC),
    RE.opt true (RE.seq [RE.plus true isSpaceC, RE.lit "from",
      RE.plus true isSpaceC, RE.group 5 (RE.plus true dotC)]),
    RE.ch ']', RE.plus true isSpaceC,
    RE.opt true (RE.seq [RE.group 6 (RE.ch '*'), RE.plus true isSpaceC]),
    RE.ch '(', RE.group 7 (RE.plus true isDigitC), RE.ch ')',
    RE.plus true isSpaceC, RE.star true dotC, RE.eol]

/-- RE_GATEWAY_INTERFACE. Groups: 1 gateway, 2 interface. -/
def re_GATEWAY_INTERFACE : RE :=
  RE.seq [RE.star false dotC, RE.lit "via", RE.plus true isSpaceC,
    RE.opt true (RE.group 1 (RE.plus true gatewayClsC)),
    RE.plus true isSpaceC, RE.lit "on", RE.plus true isSpaceC,
    RE.group 2 (RE.plus true dotC)]

/-- RE_BGP_COMMUNITY: a parenthesised comma separated triple, lazy parts.
Groups 1, 2, 3 are the components. -/
def re_BGP_COMMUNITY : RE :=
  RE.seq [RE.ch '(', RE.group 1 (RE.plus false dotC), RE.lit ", ",
    RE.group 2 (RE.plus false dotC), RE.lit ", ",
    RE.group 3 (RE.plus false dotC), RE.ch ')',
    RE.opt true (RE.pcls isSpaceC)]

/-- RE_ROUTES_START, the outer block marker 1007- followed by non-space. -/
def re_ROUTES_START : RE :=
  RE.cat (RE.lit "1007-") (RE.pcls (fun c => !isSpaceC c))

/-- RE_ROUTE_START, the inner block marker 1007-. -/
def re_ROUTE_START : RE := RE.lit "1007-"

/-- RE_PROTOCOL_START, the protocol block marker 1002-. -/
def re_PROTOCOL_START : RE := RE.lit "1002-"

/-! ## Block framing (parsers/parser.rs)

The BlockIterator and BlockGroup are generic over the regexes they receive;
the model takes them as predicates on lines (is_match). -/

/-- A block is a list of lines. -/
abbrev Block : Type := List String

/-- The optional stop regex applied to a line. -/
def stopHit (stop : Option (String → Bool)) (l : String) : Bool :=
  match stop with
  | none => false
  | some f => f l

/-- Loop body of BlockIterator::next. The accumulated block is acc; the
function returns the yielded block and the remaining lines, or none when the
stream ends via the 0000 or 9001 sentinels or when there is no line at all. -/
def biGo (start : String → Bool) (stop : Option (String → Bool))
    (acc : List String) : List String → Option (List String × List String)
  | [] => none
  | l :: rest =>
      if strStarts l "0000" then none
      else if strStarts l "9001" then none
      else
        let acc2 := acc ++ [l]
        if stopHit stop l then
          some (acc2, rest)
        else
          match rest with
          | [] => some (acc2, [])
          | nx :: _ =>
              if start nx || strStarts nx "0000" then some (acc2, rest)
              else biGo start stop acc2 rest

/-- Model of BlockIterator::next on the remaining lines. -/
def biNext (start : String → Bool) (stop : Option (String → Bool))
    (lines : List String) : Option (List String × List String) :=
  biGo start stop [] lines

/-- Iterate biNext with fuel; fuel at least the number of lines plus one is
always enough since every yielded block consumes at least one line. -/
def biBlocksFuel (start : String → Bool) (stop : Option (String → Bool)) :
    Nat → List String → List Block
  | 0, _ => []
  | fuel + 1, lines =>
      match biNext start stop lines with
      | none => []
      | some (b, rest) => b :: biBlocksFuel start stop fuel rest

/-- All blocks the BlockIterator yields on an input. -/
def biBlocks (start : String → Bool) (stop : Option (String → Bool))
    (lines : List String) : List Block :=
  biBlocksFuel start stop (lines.length + 1) lines

/-- Loop body of BlockGroup::next: accumulate until the next line matches
the start marker. -/
def bgGo (start : String → Bool) (acc : List String) :
    List String → List String × List String
  | [] => (acc, [])
  | l :: rest =>
      if start l then (acc, l :: rest) else bgGo start (acc ++ [l]) rest

/-- Model of BlockGroup::next. -/
def bgNext (start : String → Bool) :
    List String → Option (List String × List String)
  | [] => none
  | l :: rest => some (bgGo start [l] rest)

/-- Iterate bgNext with fuel. -/
def bgBlocksFuel (start : String → Bool) : Nat → List String → List Block
  | 0, _ => []
  | fuel + 1, lines =>
      match bgNext start lines with
      | none => []
      | some (b, rest) => b :: bgBlocksFuel start fuel rest

/-- All blocks a BlockGroup yields on a buffered block. -/
def bgBlocks (start : String → Bool) (lines : List String) : List Block :=
  bgBlocksFuel start (lines.length + 1) lines

/-! ## Route parser (parsers/routes.rs)

Rust panics and propagated anyhow errors are both modelled as none. -/

/-- Community type substate of the route parser. -/
inductive CommunityType where
  | cnone
  | standard
  | extended
  | large
  deriving DecidableEq

/-- Route parser state. -/
inductive RState where
  | start
  | meta
  | bgp
  | communities (t : CommunityType)
  | done
  deriving DecidableEq

/-- String from a capture. -/
def capS (caps : Caps) (n : Nat) : Option String :=
  (capGet caps n).map (fun l => String.mk l)

/-- parse_route_header: on a header match fill network, age, primary,
metric, learnt_from and neighbor_id and go to Meta; otherwise stay Start.
A metric that does not parse as u32 is a propagated error. -/
def parse_route_header (route : Route) (line : String) :
    Option (Route × RState) :=
  match reCaptures re_ROUTE_HEADER line with
  | none => some (route, RState.start)
  | some caps =>
      let route := match capS caps 1 with
        | some p => { route with network := p }
        | none => route
      let route := match capS caps 4 with
        | some a => { route with age := a }
        | none => route
      let route := match capGet caps 6 with
        | some _ => { route with primary := true }
        | none => route
      match
        (match capGet caps 7 with
         | some m =>
             match parseU32 m with
             | some v => some { route with metric := v }
             | none => none
         | none => some route) with
      | none => none
      | some route =>
          let route := match capS caps 5 with
            | some f => { route with learnt_from := some f }
            | none => route
          let route := match capS caps 3 with
            | some p => { route with neighbor_id := some p }
            | none => route
          some (route, RState.meta)

/-- parse_route_type: split the value on single spaces. -/
def parse_route_type (s : String) : List String :=
  (splitOnC ' ' s.data).map (fun l => String.mk l)

/-- parse_route_meta: a via line fills gateway and interface and stays Meta;
otherwise a Type key fills route_type; in all other cases move to BGP. -/
def parse_route_meta (route : Route) (line : String) : Route × RState :=
  match reCaptures re_GATEWAY_INTERFACE line with
  | some caps =>
      let route := match capS caps 1 with
        | some g => { route with gateway := g }
        | none => route
      let route := match capS caps 2 with
        | some i => { route with interface := i }
        | none => route
      (route, RState.meta)
  | none =>
      match reCaptures re_KEY_VALUE_ROUTES line with
      | some caps =>
          match capS caps 1, capS caps 2 with
          | some k, some v =>
              if k = "Type" then
                ({ route with route_type := parse_route_type v }, RState.bgp)
              else (route, RState.bgp)
          | _, _ => (route, RState.bgp)
      | none => (route, RState.bgp)

/-- parse_as_path: split on single spaces. -/
def parse_as_path (s : String) : List String :=
  (splitOnC ' ' s.data).map (fun l => String.mk l)

/-- parse_community: strip the outer braces by byte slicing (a panic on
strings shorter than two characters), split on commas, require exactly two
numeric tokens. -/
def parse_community (s : List Char) : Option (Nat × Nat) :=
  if s.length < 2 then none
  else
    let inner := (s.drop 1).dropLast
    match splitOnC ',' inner with
    | [a, b] =>
        match parseU32 a, parseU32 b with
        | some x, some y => some (x, y)
        | _, _ => none
    | _ => none

/-- parse_list specialised to communities: trim, split on single spaces,
parse every item, propagate the first error. -/
def parse_list_community (s : List Char) : Option (List (Nat × Nat)) :=
  (splitOnC ' ' (listTrim s)).mapM parse_community

/-- parse_large_communities: every regex match parsed as a numeric triple;
a non numeric component is an unwrap panic. -/
def parse_large_communities (s : List Char) :
    Option (List (Nat × Nat × Nat)) :=
  (reIter re_BGP_COMMUNITY s).mapM (fun c =>
    match (capGet c 1).bind parseU32, (capGet c 2).bind parseU32,
        (capGet c 3).bind parseU32 with
    | some a, some b, some d => some (a, b, d)
    | _, _, _ => none)

/-- parse_ext_communities: every regex match kept as a string triple. -/
def parse_ext_communities (s : List Char) :
    List (String × String × String) :=
  (reIter re_BGP_COMMUNITY s).map (fun c =>
    (String.mk ((capGet c 1).getD []), String.mk ((capGet c 2).getD []),
     String.mk ((capGet c 3).getD [])))

/-- parse_route_communities: classify the line by its lowercased prefix,
strip up to the colon, and append to the community list selected by the
resulting substate. -/
def parse_route_communities (route : Route) (t : CommunityType)
    (line : String) : Option (Route × RState) :=
  let low := (listLower line.data).map (fun c => if c = '.' then '_' else c)
  let low := listTrimStart low
  let nextT :=
    if listIsPrefix "bgp_community".data low then CommunityType.standard
    else if listIsPrefix "bgp_large_community".data low then
      CommunityType.large
    else if listIsPrefix "bgp_ext_community".data low then
      CommunityType.extended
    else t
  let low := match low.findIdx? (fun c => c = ':') with
    | some i => low.drop (i + 1)
    | none => low
  let low := listTrimStart low
  if low.isEmpty then some (route, RState.communities nextT)
  else
    match nextT with
    | CommunityType.standard =>
        match parse_list_community low with
        | some cs =>
            some ({ route with
              bgp := { route.bgp with
                communities := route.bgp.communities ++ cs } },
              RState.communities nextT)
        | none => none
    | CommunityType.large =>
        match parse_large_communities low with
        | some cs =>
            some ({ route with
              bgp := { route.bgp with
                large_communities := route.bgp.large_communities ++ cs } },
              RState.communities nextT)
        | none => none
    | CommunityType.extended =>
        some ({ route with
          bgp := { route.bgp with
            ext_communities :=
              route.bgp.ext_communities ++ parse_ext_communities low } },
          RState.communities nextT)
    | CommunityType.cnone => some (route, RState.done)

/-- parse_route_bgp: a key starting with bgp is stripped of its first four
bytes (a panic when the key is exactly three bytes) and dispatched; the
local_pref key moves to the communities substate. -/
def parse_route_bgp (route : Route) (line : String) :
    Option (Route × RState) :=
  match reCaptures re_KEY_VALUE_ROUTES line with
  | none => some (route, RState.bgp)
  | some caps =>
      match capGet caps 1, capS caps 2 with
      | some kraw, some v =>
          let key := listLower kraw
          if !listIsPrefix "bgp".data key then some (route, RState.bgp)
          else if key.length < 4 then none
          else
            let k := String.mk (key.drop 4)
            if k = "origin" then
              some ({ route with bgp := { route.bgp with origin := v } },
                RState.bgp)
            else if k = "as_path" then
              some ({ route with
                bgp := { route.bgp with as_path := parse_as_path v } },
                RState.bgp)
            else if k = "path" then
              some ({ route with
                bgp := { route.bgp with as_path := parse_as_path v } },
                RState.bgp)
            else if k = "next_hop" then
              some ({ route with bgp := { route.bgp with next_hop := v } },
                RState.bgp)
            else if k = "otc" then
              some ({ route with bgp := { route.bgp with otc := some v } },
                RState.bgp)
            else if k = "med" then
              some ({ route with bgp := { route.bgp with med := v } },
                RState.bgp)
            else if k = "local_pref" then
              some ({ route with bgp := { route.bgp with local_pref := v } },
                RState.communities CommunityType.cnone)
            else some (route, RState.bgp)
      | _, _ => some (route, RState.bgp)

/-- parse_line of routes.rs: dispatch on the parser state. -/
def route_parse_line (route : Route) (st : RState) (line : String) :
    Option (Route × RState) :=
  match st with
  | RState.start => parse_route_header route line
  | RState.meta => some (parse_route_meta route line)
  | RState.bgp => parse_route_bgp route line
  | RState.communities t => parse_route_communities route t line
  | RState.done => some (route, RState.done)

/-- Route::parse: fold the lines of a block through the state machine. -/
def Route.parse (block : Block) : Option Route :=
  (block.foldlM
    (fun (p : Route × RState) line => route_parse_line p.1 p.2 line)
    (({} : Route), RState.start)).map Prod.fst

/-- PrefixGroup: a list of routes sharing the leading prefix. -/
abbrev PrefixGroup : Type := List Route

/-- Loop of PrefixGroup::parse over the inner route blocks: skip greeting
blocks, parse each route, let an empty network inherit the rolling prefix,
drop routes without a neighbor id. -/
def prefixGroupGo (pfx : String) (acc : PrefixGroup) :
    List Block → Option PrefixGroup
  | [] => some acc
  | b :: bs =>
      match b with
      | [] => none
      | l0 :: _ =>
          if strStarts l0 "0001" then prefixGroupGo pfx acc bs
          else
            match Route.parse b with
            | none => none
            | some route =>
                let (route, pfx) :=
                  if route.network = "" then
                    ({ route with network := pfx }, pfx)
                  else (route, route.network)
                match route.neighbor_id with
                | none => prefixGroupGo pfx acc bs
                | some _ => prefixGroupGo pfx (acc ++ [route]) bs

/-- PrefixGroup::parse: split the outer block at the inner 1007- marker and
fold the pieces. -/
def PrefixGroup.parse (block : Block) : Option PrefixGroup :=
  prefixGroupGo "" [] (bgBlocks (fun l => reIsMatch re_ROUTE_START l) block)

/-! ## Protocol parser (parsers/protocols.rs) -/

/-- Split on a multi character separator, model of str::split with a string
pattern; fuel is the input length. -/
def splitOnSeqGo (sep : List Char) : Nat → List Char → List (List Char)
  | 0, s => [s]
  | fuel + 1, s =>
      match s with
      | [] => [[]]
      | c :: cs =>
          if listIsPrefix sep (c :: cs) then
            [] :: splitOnSeqGo sep fuel ((c :: cs).drop sep.length)
          else
            match splitOnSeqGo sep fuel cs with
            | [] => [[c]]
            | seg :: rest => (c :: seg) :: rest

/-- Split on a multi character separator. -/
def splitOnSeq (sep : List Char) (s : List Char) : List (List Char) :=
  splitOnSeqGo sep (s.length + 1) s

/-- One segment of a routes count row: tokens after trim and whitespace
split; fewer than two tokens is an out of bounds index (a panic); a count
that does not parse as u32 contributes zero. -/
def routesCountSeg (seg : List Char) : Option (String × Nat) :=
  match splitWhitespace (listTrim seg) with
  | t0 :: t1 :: _ => some (String.mk t1, (parseU32 t0).getD 0)
  | _ => none

/-- RoutesCount::parse: split the row on commas, parse each segment, and
collect into a map (later duplicates overwrite). none models a panic. -/
def RoutesCount.parse (row : String) : Option RoutesCount :=
  ((splitOnC ',' row.data).mapM routesCountSeg).map
    (fun l => l.foldl (fun m kv => alistPut m kv.1 kv.2) [])

/-- Default channel record, model of Channel::default. -/
def Channel.init : Channel := {}

/-- Channel section of the protocol parser. -/
inductive ChannelSection where
  | meta
  | routeChangeStats (fields : List String)
  deriving DecidableEq

/-- Protocol parser state. -/
inductive PState where
  | start
  | meta
  | bgpState
  | channel (name : String) (sec : ChannelSection)
  deriving DecidableEq

/-- parse_protocol_header: with the BGP filter set, a header line without
the BGP token is skipped; a regex match fills id, type, state, uptime and,
for a down protocol, the trailing info as last_error. -/
def parse_protocol_header (p : Protocol) (line : String) (filter_bgp : Bool) :
    Protocol × PState :=
  if filter_bgp && !strHasSub line "BGP" then (p, PState.start)
  else
    match reCaptures re_PROTOCOL_HEADER line with
    | none => (p, PState.start)
    | some caps =>
        let p := { p with
          id := (capS caps 1).getD p.id,
          bird_protocol := (capS caps 2).getD p.bird_protocol }
        let st := String.mk (listLower ((capGet caps 3).getD []))
        let p := { p with state := st }
        let p :=
          if st = "down" then { p with last_error := (capS caps 5).getD "" }
          else p
        let uptime := String.mk (listTrim ((capGet caps 4).getD []))
        ({ p with since := uptime, state_changed := uptime }, PState.meta)

/-- parse_channel_header: the captured channel name, if the line opens a
channel section. -/
def parse_channel_header (l : String) : Option String :=
  (reCaptures re_PROTOCOL_CHANNEL l).bind (fun caps => capS caps 1)

/-- parse_protocol_meta: a channel line opens a channel; a description key
fills the description; always continue in the BGP state. -/
def parse_protocol_meta (p : Protocol) (line : String) : Protocol × PState :=
  match parse_channel_header line with
  | some channel => (p, PState.channel channel ChannelSection.meta)
  | none =>
      match reCaptures re_KEY_VALUE line with
      | some caps =>
          let key := String.mk (listLower ((capGet caps 1).getD []))
          if key = "description" then
            ({ p with description := (capS caps 2).getD "" }, PState.bgpState)
          else (p, PState.bgpState)
      | none => (p, PState.bgpState)

/-- parse_bgp_state: neighbor address and neighbor AS key values; a
neighbor AS that does not parse as u32 is a propagated error. -/
def parse_bgp_state (p : Protocol) (line : String) :
    Option (Protocol × PState) :=
  match parse_channel_header line with
  | some channel => some (p, PState.channel channel ChannelSection.meta)
  | none =>
      match reCaptures re_KEY_VALUE line with
      | some caps =>
          let key := String.mk (listLower ((capGet caps 1).getD []))
          let val := (capS caps 2).getD ""
          if key = "neighbor address" then
            some ({ p with address := val }, PState.bgpState)
          else if key = "neighbor as" then
            match parseU32 val.data with
            | some v => some ({ p with asn := v }, PState.bgpState)
            | none => none
          else some (p, PState.bgpState)
      | none => some (p, PState.bgpState)

/-- parse_change_stats_fields: split the header on double spaces, drop
empty parts, trim, lowercase and replace spaces by underscores. -/
def parse_change_stats_fields (s : String) : List String :=
  ((splitOnSeq "  ".data s.data).filter (fun f => !f.isEmpty)).map
    (fun f => String.mk ((listLower (listTrim f)).map
      (fun c => if c = ' ' then '_' else c)))

/-- parse_change_stats_values: whitespace separated tokens, each an
optional u32. -/
def parse_change_stats_values (s : List Char) : List (Option Nat) :=
  (splitWhitespace s).map (fun v => parseU32 v)

/-- The key dispatch of parse_channel_meta, applied after the channel has
been ensured and the key and value extracted (the key already lowercased).
preference and routes propagate parse failures; the route change stats key
transitions into the stats subsection. -/
def channel_meta_apply (p : Protocol) (channel : String) (key val : String) :
    Option (Protocol × PState) :=
  let setc := fun (f : Channel → Channel) =>
    { p with channels := alistModify p.channels channel f }
  if key = "state" then
    some (setc (fun c => { c with state := val }),
      PState.channel channel ChannelSection.meta)
  else if key = "import state" then
    some (setc (fun c => { c with import_state := val }),
      PState.channel channel ChannelSection.meta)
  else if key = "export state" then
    some (setc (fun c => { c with export_state := val }),
      PState.channel channel ChannelSection.meta)
  else if key = "table" then
    some (setc (fun c => { c with table := val }),
      PState.channel channel ChannelSection.meta)
  else if key = "peer table" then
    some (setc (fun c => { c with peer_table := val }),
      PState.channel channel ChannelSection.meta)
  else if key = "preference" then
    match parseU32 val.data with
    | some v =>
        some (setc (fun c => { c with preference := v }),
          PState.channel channel ChannelSection.meta)
    | none => none
  else if key = "input filter" then
    some (setc (fun c => { c with input_filter := val }),
      PState.channel channel ChannelSection.meta)
  else if key = "output filter" then
    some (setc (fun c => { c with output_filter := val }),
      PState.channel channel ChannelSection.meta)
  else if key = "routes" then
    match RoutesCount.parse val with
    | some rc =>
        some (setc (fun c => { c with routes_count := rc }),
          PState.channel channel ChannelSection.meta)
    | none => none
  else if key = "bgp next hop" then
    some (setc (fun c => { c with bgp_next_hop := val }),
      PState.channel channel ChannelSection.meta)
  else if key = "route change stats" then
    some (p, PState.channel channel
      (ChannelSection.routeChangeStats (parse_change_stats_fields val)))
  else some (p, PState.channel channel ChannelSection.meta)

/-- parse_channel_meta: ensure the channel exists, extract the lowercased
key and the value, and dispatch. -/
def parse_channel_meta (p : Protocol) (channel : String) (line : String) :
    Option (Protocol × PState) :=
  let p := { p with channels := alistEnsure p.channels channel Channel.init }
  match reCaptures re_KEY_VALUE line with
  | none => some (p, PState.channel channel ChannelSection.meta)
  | some caps =>
      channel_meta_apply p channel
        (String.mk (listLower ((capGet caps 1).getD [])))
        ((capS caps 2).getD "")

/-- The key dispatch of parse_channel_route_change_stats, applied after
the channel has been ensured and the key and value taken from the
lowercased line: a stray bgp next hop key writes the channel meta field;
the four recognised stats rows zip the header fields with the values. -/
def channel_rcs_apply (p : Protocol) (channel : String)
    (fields : List String) (key : String) (val : List Char) :
    Protocol × PState :=
  if key = "bgp next hop" then
    ({ p with channels := (alistModify p.channels channel
        (fun c => { c with bgp_next_hop := String.mk val })) },
      PState.channel channel (ChannelSection.routeChangeStats fields))
  else
    let stats : RouteChangeStats :=
      ((fields.zip (parse_change_stats_values val)).foldl
        (fun m kv => alistPut m kv.1 kv.2) [])
    let setc := fun (f : Channel → Channel) =>
      { p with channels := alistModify p.channels channel f }
    let p :=
      if key = "import updates" then
        setc (fun c => { c with route_change_stats :=
          { c.route_change_stats with import_updates := stats } })
      else if key = "import withdraws" then
        setc (fun c => { c with route_change_stats :=
          { c.route_change_stats with import_withdraws := stats } })
      else if key = "export updates" then
        setc (fun c => { c with route_change_stats :=
          { c.route_change_stats with export_updates := stats } })
      else if key = "export withdraws" then
        setc (fun c => { c with route_change_stats :=
          { c.route_change_stats with export_withdraws := stats } })
      else p
    (p, PState.channel channel (ChannelSection.routeChangeStats fields))

/-- parse_channel_route_change_stats: the line is lowercased before the
key value match; a line with no key value pair returns to the protocol
Meta state. -/
def parse_channel_route_change_stats (p : Protocol) (channel : String)
    (fields : List String) (line : String) : Protocol × PState :=
  let p := { p with channels := alistEnsure p.channels channel Channel.init }
  let low := String.mk (listLower line.data)
  match reCaptures re_KEY_VALUE low with
  | none => (p, PState.meta)
  | some caps =>
      channel_rcs_apply p channel fields
        (String.mk ((capGet caps 1).getD [])) ((capGet caps 2).getD [])

/-- parse_channel: a channel line always opens the next channel section,
otherwise dispatch on the subsection. -/
def parse_channel (p : Protocol) (channel : String) (sec : ChannelSection)
    (line : String) : Option (Protocol × PState) :=
  match parse_channel_header line with
  | some nxt => some (p, PState.channel nxt ChannelSection.meta)
  | none =>
      match sec with
      | ChannelSection.meta => parse_channel_meta p channel line
      | ChannelSection.routeChangeStats fields =>
          some (parse_channel_route_change_stats p channel fields line)

/-- parse_line of protocols.rs: dispatch on the parser state. -/
def proto_parse_line (p : Protocol) (st : PState) (line : String)
    (filter_bgp : Bool) : Option (Protocol × PState) :=
  match st with
  | PState.start => some (parse_protocol_header p line filter_bgp)
  | PState.meta => some (parse_protocol_meta p line)
  | PState.bgpState => parse_bgp_state p line
  | PState.channel ch sec => parse_channel p ch sec line

/-- One step of the summary counter fold: add a count to a label with u32
wrap around, inserting the label when absent (entry and_modify or_insert). -/
def addCount (total : RoutesCount) (k : String) (c : Nat) : RoutesCount :=
  match alistGet total k with
  | some v => alistPut total k ((v + c) % 2 ^ 32)
  | none => total ++ [(k, c)]

/-- finalize_counters: the protocol routes summary is the fold of every
channel routes_count over the channel map in the given iteration order. -/
def finalize_counters (reorder : ChannelMap → ChannelMap) (p : Protocol) :
    Protocol :=
  { p with routes :=
      ((reorder p.channels).foldl
        (fun tot kv => kv.2.routes_count.foldl
          (fun t e => addCount t e.1 e.2) tot) []) }

/-- finalize_attributes: table and peer_table are copied from the first
channel of the map in the given iteration order (the source loop breaks
after one element); an empty map leaves the defaults. -/
def finalize_attributes (reorder : ChannelMap → ChannelMap) (p : Protocol) :
    Protocol :=
  match reorder p.channels with
  | [] => p
  | (_, ch) :: _ => { p with table := ch.table, peer_table := ch.peer_table }

/-- Protocol::parse with an explicit HashMap iteration order: fold the lines
of the block through the state machine, then finalize the counters and the
compatibility attributes. The reorder argument models the iteration order of
the channels HashMap, which the Rust standard library leaves unspecified;
insertion order is reorder = id. -/
def Protocol.parseOrd (reorder : ChannelMap → ChannelMap) (block : Block)
    (filter_bgp : Bool) : Option Protocol :=
  (block.foldlM
    (fun (ps : Protocol × PState) line =>
      proto_parse_line ps.1 ps.2 line filter_bgp)
    (({} : Protocol), PState.start)).map
    (fun ps => finalize_attributes reorder (finalize_counters reorder ps.1))

/-- Protocol::parse with insertion iteration order. -/
def Protocol.parse (block : Block) (filter_bgp : Bool) : Option Protocol :=
  Protocol.parseOrd (fun m => m) block filter_bgp

/-- Well formed routes count map: no duplicate labels and every count a
u32 value. Parsing only ever installs such maps. -/
def GoodRC (rc : RoutesCount) : Prop :=
  (rc.map Prod.fst).Nodup ∧ ∀ e ∈ rc, e.2 < 2 ^ 32

/-- Every channel of the map carries a well formed routes count. -/
def ChanInv (m : ChannelMap) : Prop := ∀ kv ∈ m, GoodRC kv.2.routes_count

/-! ## Query validation and daemon commands (bird.rs) -/

/-- Characters accepted by validate_string: ASCII alphanumeric, underscore,
dot and colon. -/
def isQueryC (c : Char) : Bool :=
  c.isAlphanum || c = '_' || c = '.' || c = ':'

/-- validate_string: non empty, at most 128 bytes, only characters from the
allowed set; on failure the reason string of the ValidationError. -/
def validate_string (s : String) : Except String Unit :=
  if s.data.isEmpty then Except.error "is empty"
  else if s.utf8ByteSize > 128 then Except.error "is too long"
  else if !s.data.all isQueryC then
    Except.error "contains invalid characters"
  else Except.ok ()

/-- QueryValue::parse. -/
def QueryValue.parse (s : String) : Except String String :=
  (validate_string s).map (fun _ => s)

/-- The single quote character, written by code point to keep the sources
free of quote literals. -/
def sq : String := String.mk [Char.ofNat 39]

/-- Command of show_route_all_table. -/
def show_route_all_table_cmd (table : String) : String :=
  "show route all table " ++ sq ++ table ++ sq ++ "\n"

/-- Command of show_route_all_filtered_table. -/
def show_route_all_filtered_table_cmd (table : String) : String :=
  "show route all filtered table " ++ sq ++ table ++ sq ++ "\n"

/-- Command of show_route_all_protocol. -/
def show_route_all_protocol_cmd (protocol : String) : String :=
  "show route all protocol " ++ sq ++ protocol ++ sq ++ "\n"

/-- Command of show_route_all_filtered_protocol. -/
def show_route_all_filtered_protocol_cmd (protocol : String) : String :=
  "show route all filtered protocol " ++ sq ++ protocol ++ sq ++ "\n"

/-- Command of show_route_all_noexport_protocol. -/
def show_route_all_noexport_protocol_cmd (protocol : String) : String :=
  "show route all noexport " ++ sq ++ protocol ++ sq ++ "\n"

/-- Command of show_route_all_table_peer: the table is quoted, the peer is
interpolated after from= without quotes, exactly as in the source format
string. -/
def show_route_all_table_peer_cmd (table : String) (peer : String) : String :=
  "show route all table " ++ sq ++ table ++ sq ++ " where from=" ++ peer
    ++ "\n"

/-! ## Connection pool (bird.rs, ConnectionPool::start)

The dispatcher loop owns a counter size. Dropping a Connection runs its
Drop handler, which sends a release on the lock channel; pending counts
the releases initiated and not yet consumed by the dispatcher (queued or
with the sending task in flight: allowing a consume before the channel
delivery only adds schedules). The ghost field active counts connections
issued to a requester and not yet dropped; the ghost field drops counts
the requests whose oneshot reply channel was gone when the dispatcher
sent the connection. A request first waits when size exceeds the limit
strictly, receiving one release and then draining d more that are
available at that instant (each decrementing size), then builds the
connection and sends it: on success size is incremented; when the send
fails the dispatcher logs, skips the increment and continues, and the
just-built connection is dropped on the spot, so its Drop handler queues
a release that no size increment ever matched. The wait transitions carry
the guard d + 1 ≤ size under which the usize subtractions cannot
underflow; when it fails the Rust subtraction panics in the dispatcher
task, after which only release transitions can occur, and those only
lower active and freeze size. -/

/-- Dispatcher state: the size counter, the initiated and unconsumed
release messages, the number of issued, not yet dropped connections
(ghost), and the number of requests whose reply channel was dropped
before the dispatcher sent the connection (ghost). -/
structure PoolState where
  size : Nat
  pending : Nat
  active : Nat
  drops : Nat
  deriving DecidableEq, Repr

/-- One transition of the pool system. -/
inductive PoolStep (limit : Nat) : PoolState → PoolState → Prop
  | release (s : PoolState) (h : 1 ≤ s.active) :
      PoolStep limit s ⟨s.size, s.pending + 1, s.active - 1, s.drops⟩
  | request_fast (s : PoolState) (h : ¬ s.size > limit) :
      PoolStep limit s ⟨s.size + 1, s.pending, s.active + 1, s.drops⟩
  | request_fast_drop (s : PoolState) (h : ¬ s.size > limit) :
      PoolStep limit s ⟨s.size, s.pending + 1, s.active, s.drops + 1⟩
  | request_wait (s : PoolState) (d : Nat) (h : s.size > limit)
      (hp : d + 1 ≤ s.pending) (hs : d + 1 ≤ s.size) :
      PoolStep limit s
        ⟨s.size - (d + 1) + 1, s.pending - (d + 1), s.active + 1, s.drops⟩
  | request_wait_drop (s : PoolState) (d : Nat) (h : s.size > limit)
      (hp : d + 1 ≤ s.pending) (hs : d + 1 ≤ s.size) :
      PoolStep limit s
        ⟨s.size - (d + 1), s.pending - (d + 1) + 1, s.active, s.drops + 1⟩

/-- Initial pool state. -/
def poolInit : PoolState := ⟨0, 0, 0, 0⟩

/-- States the pool system can reach from the start. -/
def PoolReachable (limit : Nat) (s : PoolState) : Prop :=
  Relation.ReflTransGen (PoolStep limit) poolInit s

/-! ## Response cache (api/cache.rs, api/responses.rs)

Timestamps are seconds as integers; Utc::now() becomes an explicit now
argument threaded to every operation. -/

/-- Cache configuration (config.rs), ttl in seconds. -/
structure CacheConfig where
  max_entries : Nat
  ttl : Int
  deriving DecidableEq

/-- The CachedResponse trait as a record of operations. -/
structure CachedResponseOps (T : Type) where
  mark_cached : Int → T → T
  is_expired : Int → T → Bool
  get_cached_at : T → Int

/-- The response cache: a string keyed map with a configuration. -/
structure ResponseCache (T : Type) where
  responses : List (String × T)
  config : CacheConfig

/-- ResponseCache::new. -/
def ResponseCache.new {T : Type} (config : CacheConfig) : ResponseCache T :=
  ⟨[], config⟩

/-- Remove a key from the map. -/
def alistRemove {α : Type} (m : List (String × α)) (k : String) :
    List (String × α) :=
  m.filter (fun kv => kv.1 != k)

/-- evict_expired: drop every entry whose is_expired holds now. -/
def ResponseCache.evict_expired {T : Type} (ops : CachedResponseOps T)
    (now : Int) (c : ResponseCache T) : ResponseCache T :=
  { c with responses :=
      c.responses.filter (fun kv => !ops.is_expired now kv.2) }

/-- evict_oldest: scan for the entry with the smallest cached_at strictly
below now (the initial candidate) and remove its key; when every entry has
cached_at at least now, the scan keeps the empty initial key and the remove
is a no-op. -/
def ResponseCache.evict_oldest {T : Type} (ops : CachedResponseOps T)
    (now : Int) (c : ResponseCache T) : ResponseCache T :=
  let pick := c.responses.foldl
    (fun (best : String × Int) kv =>
      if ops.get_cached_at kv.2 < best.2 then (kv.1, ops.get_cached_at kv.2)
      else best)
    ("", now)
  { c with responses := alistRemove c.responses pick.1 }

/-- put: mark the value as cached, insert it, then lazily evict expired
entries and, still over capacity, the oldest entry. -/
def ResponseCache.put {T : Type} (ops : CachedResponseOps T) (now : Int)
    (c : ResponseCache T) (key : String) (value : T) : ResponseCache T :=
  let value := ops.mark_cached now value
  let c := { c with responses := alistPut c.responses key value }
  let c :=
    if c.responses.length > c.config.max_entries then
      ResponseCache.evict_expired ops now c
    else c
  if c.responses.length > c.config.max_entries then
    ResponseCache.evict_oldest ops now c
  else c

/-- get: the stored value when the entry exists and is not expired now. -/
def ResponseCache.get {T : Type} (ops : CachedResponseOps T) (now : Int)
    (c : ResponseCache T) (key : String) : Option T :=
  match alistGet c.responses key with
  | some value => if ops.is_expired now value then none else some value
  | none => none

/-- ApiStatus: version, the cache flag, and the cache_status date. -/
structure ApiStatus where
  version : String
  result_from_cache : Bool
  cached_at_date : Int
  deriving DecidableEq

/-- ApiStatus::default at a given current time. -/
def ApiStatus.init (now : Int) : ApiStatus := ⟨"0.0.1", false, now⟩

/-- ApiStatus::mark_cached: set the flag and reset the cache status to the
current time. -/
def ApiStatus.mark_cached (now : Int) (a : ApiStatus) : ApiStatus :=
  { a with result_from_cache := true, cached_at_date := now }

/-- ApiStatus::is_expired: hard coded five minutes (300 seconds) against
the cache_status date. -/
def ApiStatus.is_expired (now : Int) (a : ApiStatus) : Bool :=
  now - a.cached_at_date > 300

/-- StatusResponse. -/
structure StatusResponse where
  api : ApiStatus
  cached_at : Int
  status : BirdStatus
  ttl : Int
  deriving DecidableEq

/-- StatusResponse::default at a given current time. -/
def StatusResponse.init (now : Int) : StatusResponse :=
  ⟨ApiStatus.init now, now, {}, now⟩

/-- The CachedResponse implementation of StatusResponse: marking stamps the
api block, the ttl and cached_at; expiry delegates to the api block. -/
def statusResponseOps : CachedResponseOps StatusResponse where
  mark_cached := fun now r =>
    { r with
      api := ApiStatus.mark_cached now r.api
      ttl := now + 300
      cached_at := now }
  is_expired := fun now r => ApiStatus.is_expired now r.api
  get_cached_at := fun r => r.cached_at

/-- RoutesResponse. -/
structure RoutesResponse where
  api : ApiStatus
  cached_at : Int
  routes : List Route
  deriving DecidableEq

/-- RoutesResponse::default at a given current time. -/
def RoutesResponse.init (now : Int) : RoutesResponse :=
  ⟨ApiStatus.init now, now, []⟩

/-- The CachedResponse implementation of RoutesResponse. -/
def routesResponseOps : CachedResponseOps RoutesResponse where
  mark_cached := fun now r =>
    { r with
      api := ApiStatus.mark_cached now r.api
      cached_at := now }
  is_expired := fun now r => ApiStatus.is_expired now r.api
  get_cached_at := fun r => r.cached_at

/-- The status cache configuration (api/status.rs): one entry, five second
ttl. -/
def statusCacheConfig : CacheConfig := ⟨1, 5⟩

/-! ## Rate limiter (api/rate_limit.rs) -/

/-- Rate limiting configuration, window in seconds. -/
structure RateLimitConfig where
  requests : Nat
  window : Int
  deriving DecidableEq

/-- A per client bucket. -/
structure RateLimitBucket where
  count : Nat
  window_start : Int
  deriving DecidableEq, Repr

/-- RateLimitBucket::default at a given current time. -/
def RateLimitBucket.init (now : Int) : RateLimitBucket := ⟨0, now⟩

/-- check_rate_limit on one bucket: a window older than the configured
window resets the bucket and allows without counting; below the request
budget the count is incremented and the check allows; otherwise deny. -/
def check_rate_limit (cfg : RateLimitConfig) (now : Int)
    (b : RateLimitBucket) : Bool × RateLimitBucket :=
  if now - b.window_start > cfg.window then (true, ⟨0, now⟩)
  else if b.count < cfg.requests then (true, ⟨b.count + 1, b.window_start⟩)
  else (false, b)

/-- check_rate_limit at the bucket map level: the bucket is looked up or
lazily created with the current time (entry or_default). -/
def limiter_check (cfg : RateLimitConfig)
    (m : List (String × RateLimitBucket)) (key : String) (now : Int) :
    Bool × List (String × RateLimitBucket) :=
  let b := alistGetD m key (RateLimitBucket.init now)
  let (ok, b2) := check_rate_limit cfg now b
  (ok, alistPut m key b2)

/-- Fold check_rate_limit over a list of check times on one bucket,
collecting the answers. -/
def run_checks (cfg : RateLimitConfig) (b : RateLimitBucket) :
    List Int → List Bool × RateLimitBucket
  | [] => ([], b)
  | t :: ts =>
      let (ok, b2) := check_rate_limit cfg t b
      let (oks, b3) := run_checks cfg b2 ts
      (ok :: oks, b3)

/-! ## Per protocol routes endpoints (api/routes.rs)

The receive loop of list_routes_received, list_routes_filtered and
list_routes_noexport: each channel result extends the accumulated routes
(parse errors are logged and skipped), and with a configured cutoff the
loop stops as soon as the accumulated length reaches it. -/

/-- The collection loop of the per protocol routes endpoints. -/
def routesCollectGo (cutoff : Option Nat) (routes : List Route) :
    List (Except Unit (List Route)) → List Route
  | [] => routes
  | r :: rest =>
      let routes := match r with
        | Except.ok grp => routes ++ grp
        | Except.error _ => routes
      match cutoff with
      | some n =>
          if routes.length ≥ n then routes else routesCollectGo cutoff routes rest
      | none => routesCollectGo cutoff routes rest

/-- Routes collected by a per protocol endpoint from a result stream. -/
def routesCollect (cutoff : Option Nat)
    (results : List (Except Unit (List Route))) : List Route :=
  routesCollectGo cutoff [] results

/-- Size of the largest route block in a result stream (errors count as
empty). -/
def resultsMaxBlock (results : List (Except Unit (List Route))) : Nat :=
  (results.map (fun r => match r with
    | Except.ok g => g.length
    | Except.error _ => 0)).foldr max 0

/-- The test blocks used by the concrete counterexamples and witnesses:
a route block whose leading line matches the outer 1007 marker but carries
no parseable prefix, followed by an inner block whose second line supplies
a network, followed by a continuation route. -/
def cexRouteBlock : Block :=
  ["1007-z unicast [R1 2023-01-01 10:00:00] * (100) q",
   "1007- x",
   "10.0.0.1/32 unicast [R2 2023-01-01 10:00:00] * (100) q",
   "1007- unicast [R3 2023-01-01 10:00:00] * (100) q"]

/-- A two route block: a leading route without a parseable prefix and a
continuation route; both routes end up with empty networks. -/
def wRouteBlock : Block :=
  ["1007-z unicast [R1 2023-01-01 10:00:00] * (100) q",
   "1007- unicast [R2 2023-01-01 10:00:00] * (100) q"]

/-- A protocol block with two channels carrying different tables, used to
exhibit the iteration order dependence of the compatibility attributes. -/
def cexProtocolBlock : Block :=
  ["1002-R1         BGP        ---        up     2023-04-19 09:39:25  Established",
   "   BGP state:          Established",
   "1004-  Channel ipv4",
   "    State:          UP",
   "    Table:          master4",
   "    Peer table:     T_R1_4",
   "    Routes:         10 imported, 5 filtered",
   "1004-  Channel ipv6",
   "    Table:          master6",
   "    Peer table:     T_R1_6",
   "    Routes:         7 imported, 1 filtered"]

/-! ## Helper lemmas -/

/-- A list is a prefix of itself extended by anything. -/
theorem listIsPrefix_append_self (n t : List Char) :
    listIsPrefix n (n ++ t) = true := by
  induction n with
  | nil => rfl
  | cons c cs ih => simp [listIsPrefix, ih]

/-- A list occurs inside any extension of itself on both sides. -/
theorem listHasInfix_mid (n pre suf : List Char) :
    listHasInfix n (pre ++ (n ++ suf)) = true := by
  induction pre with
  | nil =>
      cases n with
      | nil =>
          cases suf with
          | nil => rfl
          | cons c cs => simp [listHasInfix, listIsPrefix]
      | cons c cs =>
          have h := listIsPrefix_append_self (c :: cs) suf
          simp only [List.cons_append] at h
          simp [listHasInfix, h]
  | cons p ps ih =>
      simp [listHasInfix, ih]

/-- Substring containment for a concatenation with the pattern in the
middle. -/
theorem strHasSub_mid (pre mid suf : String) :
    strHasSub (pre ++ mid ++ suf) mid = true := by
  have h : (pre ++ mid ++ suf).data = pre.data ++ (mid.data ++ suf.data) := by
    simp [String.data_append, List.append_assoc]
  simp only [strHasSub, h]
  exact listHasInfix_mid mid.data pre.data suf.data

/-- A successful validation forces every character into the allowed set. -/
theorem validate_string_chars (s : String)
    (h : validate_string s = Except.ok ()) : s.data.all isQueryC = true := by
  by_cases h1 : s.data.isEmpty
  · simp [validate_string, h1] at h
  · by_cases h2 : s.utf8ByteSize > 128
    · simp [validate_string, h1, h2] at h
    · by_cases h3 : s.data.all isQueryC
      · exact h3
      · simp [validate_string, h1, h2, h3] at h

/-! ## C1 -/

/-- C1: the claim states that a cache entry expires after the configured
TTL of its cache, in particular that the status cache (TTL five seconds)
answers absent for entries older than five seconds. The code hard codes a
five minute horizon in ApiStatus::is_expired and never reads the
configured ttl: an entry of the status cache put at time 0 is still
returned at time 10 although 10 exceeds the configured TTL of 5, and it
only becomes absent after 300 seconds. -/
theorem c1_status_cache_ignores_configured_ttl :
    (10 : Int) - 0 > statusCacheConfig.ttl ∧
    ResponseCache.get statusResponseOps 10
      (ResponseCache.put statusResponseOps 0
        (ResponseCache.new statusCacheConfig) "status"
        (StatusResponse.init 0)) "status"
      = some (statusResponseOps.mark_cached 0 (StatusResponse.init 0)) ∧
    ResponseCache.get statusResponseOps 300
      (ResponseCache.put statusResponseOps 0
        (ResponseCache.new statusCacheConfig) "status"
        (StatusResponse.init 0)) "status"
      = some (statusResponseOps.mark_cached 0 (StatusResponse.init 0)) ∧
    ResponseCache.get statusResponseOps 301
      (ResponseCache.put statusResponseOps 0
        (ResponseCache.new statusCacheConfig) "status"
        (StatusResponse.init 0)) "status" = none := by
  refine ⟨by decide, rfl, rfl, rfl⟩

/-! ## C5 -/

/-- C5: the claim states that RoutesCount::parse is total. It is not: a
comma separated segment with fewer than two whitespace tokens makes the
source index s[0] or s[1] out of bounds, a panic, modelled as none. The
row 5 (one token) and the empty row both panic; a malformed count token in
a well formed two token segment does contribute zero as claimed. -/
theorem c5_routes_count_parse_panics :
    RoutesCount.parse "5" = none ∧
    RoutesCount.parse "" = none ∧
    RoutesCount.parse "10 imported, 5 filtered"
      = some [("imported", 10), ("filtered", 5)] ∧
    RoutesCount.parse "x imported, 3 filtered"
      = some [("imported", 0), ("filtered", 3)] := by
  refine ⟨rfl, rfl, rfl, rfl⟩

/-! ## C3 -/

/-- C3 counterexample: R1 passes validation, yet the command built by
show_route_all_table_peer does not contain the peer value inside single
quotes; the peer is interpolated unquoted after from=. -/
theorem c3_counterexample_peer_not_quoted :
    validate_string "R1" = Except.ok () ∧
    strHasSub (show_route_all_table_peer_cmd "master4" "R1")
      (sq ++ "R1" ++ sq) = false := by
  refine ⟨rfl, rfl⟩

/-- C3 amended: for every pair of successfully validated query values, the
table command, the filtered table command, the protocol command, the
filtered protocol command and the noexport command embed the value inside
single quotes, and so does the table position of the table with peer
command; the peer position of that command carries the exact value
unquoted after from=. In every case the validated value consists only of
ASCII alphanumerics, underscore, dot and colon, so no other metacharacters
reach the daemon. -/
theorem c3_commands_embed_validated_values (s t : String)
    (hs : validate_string s = Except.ok ())
    (ht : validate_string t = Except.ok ()) :
    strHasSub (show_route_all_table_cmd s) (sq ++ s ++ sq) = true ∧
    strHasSub (show_route_all_filtered_table_cmd s) (sq ++ s ++ sq) = true ∧
    strHasSub (show_route_all_protocol_cmd s) (sq ++ s ++ sq) = true ∧
    strHasSub (show_route_all_filtered_protocol_cmd s)
      (sq ++ s ++ sq) = true ∧
    strHasSub (show_route_all_noexport_protocol_cmd s)
      (sq ++ s ++ sq) = true ∧
    strHasSub (show_route_all_table_peer_cmd s t) (sq ++ s ++ sq) = true ∧
    strHasSub (show_route_all_table_peer_cmd s t)
      ("from=" ++ t ++ "\n") = true ∧
    s.data.all isQueryC = true ∧ t.data.all isQueryC = true := by
  refine ⟨?_, ?_, ?_, ?_, ?_, ?_, ?_,
    validate_string_chars s hs, validate_string_chars t ht⟩
  · have h := strHasSub_mid "show route all table " (sq ++ s ++ sq) "\n"
    simpa [show_route_all_table_cmd, String.append_assoc] using h
  · have h := strHasSub_mid "show route all filtered table "
      (sq ++ s ++ sq) "\n"
    simpa [show_route_all_filtered_table_cmd, String.append_assoc] using h
  · have h := strHasSub_mid "show route all protocol " (sq ++ s ++ sq) "\n"
    simpa [show_route_all_protocol_cmd, String.append_assoc] using h
  · have h := strHasSub_mid "show route all filtered protocol "
      (sq ++ s ++ sq) "\n"
    simpa [show_route_all_filtered_protocol_cmd, String.append_assoc] using h
  · have h := strHasSub_mid "show route all noexport " (sq ++ s ++ sq) "\n"
    simpa [show_route_all_noexport_protocol_cmd, String.append_assoc] using h
  · have h := strHasSub_mid "show route all table " (sq ++ s ++ sq)
      (" where from=" ++ t ++ "\n")
    simpa [show_route_all_table_peer_cmd, String.append_assoc] using h
  · have h := strHasSub_mid
      ("show route all table " ++ sq ++ s ++ sq ++ " where ")
      ("from=" ++ t ++ "\n") ""
    simpa [show_route_all_table_peer_cmd, String.append_assoc] using h

/-- C3 witness: the amended statement at the concrete values master4 and
R1. -/
theorem c3_commands_embed_validated_values_witness :
    strHasSub (show_route_all_table_cmd "master4")
      (sq ++ "master4" ++ sq) = true ∧
    strHasSub (show_route_all_filtered_table_cmd "master4")
      (sq ++ "master4" ++ sq) = true ∧
    strHasSub (show_route_all_protocol_cmd "master4")
      (sq ++ "master4" ++ sq) = true ∧
    strHasSub (show_route_all_filtered_protocol_cmd "master4")
      (sq ++ "master4" ++ sq) = true ∧
    strHasSub (show_route_all_noexport_protocol_cmd "master4")
      (sq ++ "master4" ++ sq) = true ∧
    strHasSub (show_route_all_table_peer_cmd "master4" "R1")
      (sq ++ "master4" ++ sq) = true ∧
    strHasSub (show_route_all_table_peer_cmd "master4" "R1")
      ("from=" ++ "R1" ++ "\n") = true ∧
    "master4".data.all isQueryC = true ∧ "R1".data.all isQueryC = true :=
  c3_commands_embed_validated_values "master4" "R1" rfl rfl

/-! ## C4 -/

/-- The collection loop keeps the accumulated length below the cutoff on
entry, so the result exceeds the cutoff by at most one block. -/
theorem routesCollectGo_length_bound (n : Nat) :
    ∀ (results : List (Except Unit (List Route))) (acc : List Route),
      acc.length ≤ n - 1 →
      (routesCollectGo (some n) acc results).length
        ≤ (n - 1) + resultsMaxBlock results := by
  intro results
  induction results with
  | nil =>
      intro acc hacc
      simpa [routesCollectGo, resultsMaxBlock] using hacc
  | cons r rest ih =>
      intro acc hacc
      cases r with
      | ok g =>
          have hmax : resultsMaxBlock (Except.ok g :: rest)
              = max g.length (resultsMaxBlock rest) := rfl
          simp only [routesCollectGo]
          by_cases hstop : (acc ++ g).length ≥ n
          · simp only [hstop, if_pos]
            have : (acc ++ g).length ≤ (n - 1) + g.length := by
              simp only [List.length_append]
              omega
            refine Nat.le_trans this ?_
            rw [hmax]
            omega
          · simp only [hstop, if_neg, not_false_iff]
            have hlt : (acc ++ g).length ≤ n - 1 := by omega
            refine Nat.le_trans (ih (acc ++ g) hlt) ?_
            rw [hmax]
            omega
      | error e =>
          have hmax : resultsMaxBlock (Except.error e :: rest)
              = max 0 (resultsMaxBlock rest) := rfl
          simp only [routesCollectGo]
          by_cases hstop : acc.length ≥ n
          · simp only [hstop, if_pos]
            refine Nat.le_trans hacc ?_
            omega
          · simp only [hstop, if_neg, not_false_iff]
            refine Nat.le_trans (ih acc hacc) ?_
            rw [hmax]
            omega

/-- Once the loop has stopped at the cutoff, further pending results do not
change the outcome. -/
theorem routesCollectGo_stable (n : Nat) :
    ∀ (results extra : List (Except Unit (List Route))) (acc : List Route),
      acc.length < n →
      n ≤ (routesCollectGo (some n) acc results).length →
      routesCollectGo (some n) acc (results ++ extra)
        = routesCollectGo (some n) acc results := by
  intro results
  induction results with
  | nil =>
      intro extra acc hacc hstop
      simp only [routesCollectGo] at hstop
      omega
  | cons r rest ih =>
      intro extra acc hacc hstop
      cases r with
      | ok g =>
          simp only [routesCollectGo, List.cons_append] at hstop ⊢
          by_cases hge : (acc ++ g).length ≥ n
          · have hge2 : n ≤ acc.length + g.length := by
              simpa [List.length_append] using hge
            simp [hge2]
          · have hge2 : ¬ n ≤ acc.length + g.length := by
              simpa [List.length_append] using hge
            simp only [ge_iff_le, List.length_append, hge2, if_neg,
              not_false_iff] at hstop ⊢
            exact ih extra (acc ++ g) (by simp [List.length_append]; omega)
              hstop
      | error e =>
          simp only [routesCollectGo, List.cons_append] at hstop ⊢
          by_cases hge : n ≤ acc.length
          · simp [hge]
          · simp only [ge_iff_le, hge, if_neg, not_false_iff] at hstop ⊢
            exact ih extra acc hacc hstop

/-- C4 counterexample: with cutoff 1, a single result block of two routes
is returned whole: the returned list has length 2, not at most 1. -/
theorem c4_counterexample_cutoff_overshoot :
    (routesCollect (some 1)
      [Except.ok [({} : Route), ({} : Route)]]).length = 2 ∧
    ¬ ((routesCollect (some 1)
      [Except.ok [({} : Route), ({} : Route)]]).length ≤ 1) := by
  refine ⟨rfl, by decide⟩

/-- C4 amended: the per protocol endpoints stop pulling once the
accumulated routes reach the cutoff N (appending further results does not
change the outcome once the collected length has reached N), and the
returned list has length at most N - 1 plus the size of the largest
received block: the final block may push the total past N, so the length
is not bounded by N itself. -/
theorem c4_routes_cutoff_partial_set (n : Nat)
    (results extra : List (Except Unit (List Route))) :
    (routesCollect (some n) results).length
      ≤ (n - 1) + resultsMaxBlock results ∧
    (1 ≤ n → n ≤ (routesCollect (some n) results).length →
      routesCollect (some n) (results ++ extra)
        = routesCollect (some n) results) := by
  constructor
  · exact routesCollectGo_length_bound n results [] (by simp)
  · intro hn hstop
    exact routesCollectGo_stable n results extra [] (by simpa using hn) hstop

/-- C4 witness: the amended statement at cutoff 2 with a two route block
followed by a further block that is not pulled. -/
theorem c4_routes_cutoff_partial_set_witness :
    (routesCollect (some 2)
      [Except.ok [({} : Route), ({} : Route)]]).length
      ≤ (2 - 1) + resultsMaxBlock [Except.ok [({} : Route), ({} : Route)]] ∧
    routesCollect (some 2)
      ([Except.ok [({} : Route), ({} : Route)]]
        ++ [Except.ok [({} : Route)]])
      = routesCollect (some 2) [Except.ok [({} : Route), ({} : Route)]] := by
  have h := c4_routes_cutoff_partial_set 2
    [Except.ok [({} : Route), ({} : Route)]] [Except.ok [({} : Route)]]
  exact ⟨h.1, h.2 (by decide) (by decide)⟩

/-! ## C8 -/

/-- Checks within the window on a bucket with enough remaining budget all
allow and increment the counter, leaving the window start unchanged. -/
theorem run_checks_within_window (cfg : RateLimitConfig) (t0 : Int) :
    ∀ (ts : List Int) (c : Nat), (∀ s ∈ ts, s - t0 ≤ cfg.window) →
      c + ts.length ≤ cfg.requests →
      run_checks cfg ⟨c, t0⟩ ts
        = (List.replicate ts.length true, ⟨c + ts.length, t0⟩) := by
  intro ts
  induction ts with
  | nil => intro c _ _; simp [run_checks]
  | cons t ts ih =>
      intro c hin hbudget
      have hwin : ¬ t - t0 > cfg.window := by
        have := hin t (by simp)
        omega
      have hcount : c < cfg.requests := by
        simp only [List.length_cons] at hbudget
        omega
      have hrec := ih (c + 1)
        (fun s hs => hin s (by simp [hs]))
        (by simp only [List.length_cons] at hbudget; omega)
      have hc : check_rate_limit cfg t ⟨c, t0⟩ = (true, ⟨c + 1, t0⟩) := by
        simp [check_rate_limit, hwin, hcount]
      simp only [run_checks, hc, hrec, List.length_cons,
        List.replicate_succ, Prod.mk.injEq, RateLimitBucket.mk.injEq]
      exact ⟨trivial, by omega, trivial⟩

/-- C8: starting from a fresh bucket, the first `requests` checks within
the window all allow and fill the counter; the next check within the
window denies; and whenever the elapsed time since the window start
exceeds the window, the check resets the bucket and allows. -/
theorem c8_rate_limiter_window (cfg : RateLimitConfig) (t0 t t2 : Int)
    (ts : List Int) (b : RateLimitBucket)
    (hlen : ts.length = cfg.requests)
    (hin : ∀ s ∈ ts, s - t0 ≤ cfg.window)
    (ht : t - t0 ≤ cfg.window)
    (hb : t2 - b.window_start > cfg.window) :
    (run_checks cfg (RateLimitBucket.init t0) ts).1
      = List.replicate cfg.requests true ∧
    (run_checks cfg (RateLimitBucket.init t0) ts).2
      = ⟨cfg.requests, t0⟩ ∧
    (check_rate_limit cfg t
      (run_checks cfg (RateLimitBucket.init t0) ts).2).1 = false ∧
    check_rate_limit cfg t2 b = (true, ⟨0, t2⟩) := by
  have hrun := run_checks_within_window cfg t0 ts 0 hin (by omega)
  have h1 : (run_checks cfg (RateLimitBucket.init t0) ts).1
      = List.replicate cfg.requests true := by
    rw [show RateLimitBucket.init t0 = ⟨0, t0⟩ from rfl, hrun, hlen]
  have h2 : (run_checks cfg (RateLimitBucket.init t0) ts).2
      = ⟨cfg.requests, t0⟩ := by
    rw [show RateLimitBucket.init t0 = ⟨0, t0⟩ from rfl, hrun]
    simp [hlen]
  refine ⟨h1, h2, ?_, ?_⟩
  · rw [h2]
    have hwin : ¬ t - t0 > cfg.window := by omega
    simp [check_rate_limit, hwin]
  · simp [check_rate_limit, hb]

/-- C8 witness: two requests in a sixty second window, checks at times 1
and 2 allowed, a third check at time 3 denied, and a check at time 61 on a
full bucket started at 0 allowed with a reset. -/
theorem c8_rate_limiter_window_witness :
    (run_checks ⟨2, 60⟩ (RateLimitBucket.init 0) [1, 2]).1
      = List.replicate 2 true ∧
    (run_checks ⟨2, 60⟩ (RateLimitBucket.init 0) [1, 2]).2 = ⟨2, 0⟩ ∧
    (check_rate_limit ⟨2, 60⟩ 3
      (run_checks ⟨2, 60⟩ (RateLimitBucket.init 0) [1, 2]).2).1 = false ∧
    check_rate_limit ⟨2, 60⟩ 61 ⟨2, 0⟩ = (true, ⟨0, 61⟩) :=
  c8_rate_limiter_window ⟨2, 60⟩ 0 3 61 [1, 2] ⟨2, 0⟩ rfl
    (by intro s hs; fin_cases hs <;> decide) (by decide) (by decide)

/-! ## C2 -/

/-- Invariant of the connection pool dispatcher: issued and unreleased
connections plus unconsumed releases never exceed the size counter plus
the number of requests cancelled after a slot was prepared (a failed
oneshot send queues a release with no matching size increment), and the
size counter itself never exceeds limit plus one (the dispatcher only
waits when size is strictly above limit, and waiting never raises size).
So the only unconditional bound is size ≤ limit + 1: the live connections
are bounded only by limit + 1 + drops, a ceiling that every cancelled
request raises by one. -/
theorem poolReachable_invariant (limit : Nat) (s : PoolState)
    (h : PoolReachable limit s) :
    s.active + s.pending ≤ s.size + s.drops ∧ s.size ≤ limit + 1 := by
  induction h with
  | refl => simp [poolInit]
  | tail hsteps hstep ih =>
      obtain ⟨ih1, ih2⟩ := ih
      cases hstep with
      | release h1 => dsimp only; omega
      | request_fast h1 => dsimp only; omega
      | request_fast_drop h1 => dsimp only; omega
      | request_wait d h1 hp hs => dsimp only; omega
      | request_wait_drop d h1 hp hs => dsimp only; omega

/-- C2: the pool does not enforce the claimed limit on issued and
unreleased connections. With limit 1, two back-to-back requests are both
granted (the dispatcher waits only when size exceeds the limit STRICTLY),
reaching two live connections; and when one earlier request was cancelled
before the dispatcher's send, the connection built for it is dropped
without a size increment while its Drop handler still queues a release,
so a later waiting request consumes that stale release, decrements size
below the live count, and is granted: three live connections with limit
1, one more than even limit + 1, and each further cancelled request
raises the reachable ceiling by one more. -/
theorem c2_pool_admits_more_than_limit :
    (PoolReachable 1 ⟨2, 0, 2, 0⟩ ∧
      1 < (⟨2, 0, 2, 0⟩ : PoolState).active) ∧
    (PoolReachable 1 ⟨2, 0, 3, 1⟩ ∧
      1 + 1 < (⟨2, 0, 3, 1⟩ : PoolState).active) := by
  constructor
  · constructor
    · have s1 : PoolStep 1 poolInit ⟨1, 0, 1, 0⟩ :=
        PoolStep.request_fast poolInit (by decide)
      have s2 : PoolStep 1 ⟨1, 0, 1, 0⟩ ⟨2, 0, 2, 0⟩ :=
        PoolStep.request_fast ⟨1, 0, 1, 0⟩ (by decide)
      exact Relation.ReflTransGen.tail
        (Relation.ReflTransGen.tail Relation.ReflTransGen.refl s1) s2
    · decide
  · constructor
    · have s1 : PoolStep 1 poolInit ⟨0, 1, 0, 1⟩ :=
        PoolStep.request_fast_drop poolInit (by decide)
      have s2 : PoolStep 1 ⟨0, 1, 0, 1⟩ ⟨1, 1, 1, 1⟩ :=
        PoolStep.request_fast ⟨0, 1, 0, 1⟩ (by decide)
      have s3 : PoolStep 1 ⟨1, 1, 1, 1⟩ ⟨2, 1, 2, 1⟩ :=
        PoolStep.request_fast ⟨1, 1, 1, 1⟩ (by decide)
      have s4 : PoolStep 1 ⟨2, 1, 2, 1⟩ ⟨2, 0, 3, 1⟩ :=
        PoolStep.request_wait ⟨2, 1, 2, 1⟩ 0 (by decide) (by decide)
          (by decide)
      exact Relation.ReflTransGen.tail
        (Relation.ReflTransGen.tail
          (Relation.ReflTransGen.tail
            (Relation.ReflTransGen.tail Relation.ReflTransGen.refl s1) s2)
          s3) s4
    · decide

/-! ## C10 -/

/-- A line beginning with 9001 does not begin with 0000. -/
theorem strStarts_9001_not_0000 (l : String)
    (h : strStarts l "9001" = true) : strStarts l "0000" = false := by
  cases hd : l.data with
  | nil => rw [strStarts, hd] at h; exact absurd h (by decide)
  | cons c cs =>
      rw [strStarts, hd] at h
      rw [strStarts, hd]
      by_cases hc : c = '9'
      · subst hc
        simp only [show ("0000".data : List Char)
          = ['0', '0', '0', '0'] from rfl, listIsPrefix]
        rw [if_neg (by decide : ¬ ('0' : Char) = '9')]
      · exfalso
        simp only [show ("9001".data : List Char)
          = ['9', '0', '0', '1'] from rfl, listIsPrefix] at h
        rw [if_neg (fun he => hc he.symm)] at h
        exact absurd h (by decide)

/-- Reading a 9001 line returns none whatever has been accumulated. -/
theorem biGo_step_error (start : String → Bool)
    (stop : Option (String → Bool)) (pre : List String) (l : String)
    (rest : List String) (hl9 : strStarts l "9001" = true) :
    biGo start stop pre (l :: rest) = none := by
  rw [biGo]
  simp [strStarts_9001_not_0000 l hl9, hl9]

/-- Reading an unremarkable line whose successor is no boundary pushes the
line and continues. -/
theorem biGo_step_continue (start : String → Bool)
    (stop : Option (String → Bool)) (pre : List String) (a nx : String)
    (tail2 : List String)
    (ha1 : strStarts a "0000" = false) (ha2 : strStarts a "9001" = false)
    (ha3 : stopHit stop a = false) (hnx : start nx = false)
    (hnx0 : strStarts nx "0000" = false) :
    biGo start stop pre (a :: nx :: tail2)
      = biGo start stop (pre ++ [a]) (nx :: tail2) := by
  rw [biGo]
  simp [ha1, ha2, ha3, hnx, hnx0]

/-- If the loop of BlockIterator::next has accumulated the lines of suffix
without meeting a sentinel, a stop match or a block boundary, and then
reads a 9001 line, it returns none, discarding the accumulated lines. -/
theorem biGo_hits_error (start : String → Bool)
    (stop : Option (String → Bool)) :
    ∀ (suffix pre : List String) (l : String) (rest : List String),
      (∀ x ∈ suffix, strStarts x "0000" = false) →
      (∀ x ∈ suffix, strStarts x "9001" = false) →
      (∀ x ∈ suffix, stopHit stop x = false) →
      (∀ x ∈ suffix.drop 1, start x = false ∧ strStarts x "0000" = false) →
      start l = false → strStarts l "9001" = true →
      biGo start stop pre (suffix ++ l :: rest) = none := by
  intro suffix
  induction suffix with
  | nil =>
      intro pre l rest _ _ _ _ _ h6
      exact biGo_step_error start stop pre l rest h6
  | cons a tl ih =>
      intro pre l rest h1 h2 h3 h4 h5 h6
      have ha1 := h1 a (by simp)
      have ha2 := h2 a (by simp)
      have ha3 := h3 a (by simp)
      have hl0 := strStarts_9001_not_0000 l h6
      cases tl with
      | nil =>
          rw [show ([a] ++ l :: rest) = a :: l :: rest from rfl,
            biGo_step_continue start stop pre a l rest ha1 ha2 ha3 h5 hl0]
          exact biGo_step_error start stop (pre ++ [a]) l rest h6
      | cons b tl2 =>
          have hb := h4 b (by simp)
          rw [show ((a :: b :: tl2) ++ l :: rest)
              = a :: b :: (tl2 ++ l :: rest) from rfl,
            biGo_step_continue start stop pre a b (tl2 ++ l :: rest)
              ha1 ha2 ha3 hb.1 hb.2]
          exact ih (pre ++ [a]) l rest
            (fun x hx => h1 x (by simp [hx]))
            (fun x hx => h2 x (by simp [hx]))
            (fun x hx => h3 x (by simp [hx]))
            (fun x hx => h4 x
              (by simpa using List.mem_cons_of_mem b (by simpa using hx)))
            h5 h6

/-- A stream on which next returns none yields no blocks, whatever the
fuel. -/
theorem biBlocksFuel_of_none (start : String → Bool)
    (stop : Option (String → Bool)) (lines : List String)
    (h : biNext start stop lines = none) :
    ∀ fuel, biBlocksFuel start stop fuel lines = [] := by
  intro fuel
  cases fuel with
  | zero => rfl
  | succ n => simp [biBlocksFuel, h]

/-- C10: when the BlockIterator reads a 9001 line after accumulating one or
more lines of the current block, with no block boundary, sentinel or stop
match having ended the block first, next() returns none and the
accumulated lines are discarded; a block completed before that point is
still yielded, and nothing after it. -/
theorem c10_error_line_discards_partial_block (start : String → Bool)
    (stop : Option (String → Bool)) (acc done B : List String)
    (l : String) (rest : List String)
    (_hne : acc ≠ [])
    (h1 : ∀ x ∈ acc, strStarts x "0000" = false)
    (h2 : ∀ x ∈ acc, strStarts x "9001" = false)
    (h3 : ∀ x ∈ acc, stopHit stop x = false)
    (h4 : ∀ x ∈ acc.drop 1, start x = false ∧ strStarts x "0000" = false)
    (h5 : start l = false) (h6 : strStarts l "9001" = true)
    (h7 : biNext start stop (done ++ acc ++ l :: rest)
      = some (B, acc ++ l :: rest)) :
    biNext start stop (acc ++ l :: rest) = none ∧
    biBlocks start stop (acc ++ l :: rest) = [] ∧
    biBlocks start stop (done ++ acc ++ l :: rest) = [B] := by
  have hnone : biNext start stop (acc ++ l :: rest) = none :=
    biGo_hits_error start stop acc [] l rest h1 h2 h3 h4 h5 h6
  refine ⟨hnone, biBlocksFuel_of_none start stop _ hnone _, ?_⟩
  simp only [biBlocks, biBlocksFuel, h7]
  rw [biBlocksFuel_of_none start stop _ hnone]

/-- C10 witness: with the protocol start marker, the greeting line forms a
completed block; the partial block 1002-x is discarded when the 9001 line
arrives. -/
theorem c10_error_line_discards_partial_block_witness :
    biNext (fun s => strStarts s "1002-") none
      (["1002-x"] ++ "9001 parse error" :: []) = none ∧
    biBlocks (fun s => strStarts s "1002-") none
      (["1002-x"] ++ "9001 parse error" :: []) = [] ∧
    biBlocks (fun s => strStarts s "1002-") none
      (["0001 hello"] ++ ["1002-x"] ++ "9001 parse error" :: [])
      = [["0001 hello"]] :=
  c10_error_line_discards_partial_block (fun s => strStarts s "1002-") none
    ["1002-x"] ["0001 hello"] ["0001 hello"] "9001 parse error" []
    (by decide) (by decide) (by decide) (by decide) (by decide)
    (by decide) (by decide) (by decide)

/-! ## C7 -/

/-- Monotone networks: an empty network in the emitted group is preceded
only by empty networks. -/
def netMono (xs : List Route) : Prop :=
  ∀ i j ri rj, i ≤ j → xs.get? i = some ri → xs.get? j = some rj →
    rj.network = "" → ri.network = ""

/-- A list of routes with empty networks everywhere is netMono. -/
theorem netMono_of_all_empty (xs : List Route)
    (h : ∀ r ∈ xs, r.network = "") : netMono xs := by
  intro i j ri rj _ hi _ _
  exact h ri (List.get?_mem hi)

/-- Appending a route with a non empty network preserves netMono. -/
theorem netMono_append_ne (xs : List Route) (r : Route) (hx : netMono xs)
    (hr : r.network ≠ "") : netMono (xs ++ [r]) := by
  intro i j ri rj hij hi hj hrj
  by_cases hjl : j < xs.length
  · have hil : i < xs.length := lt_of_le_of_lt hij hjl
    rw [List.get?_append hil] at hi
    rw [List.get?_append hjl] at hj
    exact hx i j ri rj hij hi hj hrj
  · rcases Nat.lt_or_ge j (xs ++ [r]).length with hlt | hge
    · have hj2 : j = xs.length := by
        simp only [List.length_append, List.length_cons,
          List.length_nil] at hlt
        omega
      subst hj2
      rw [List.get?_concat_length] at hj
      cases hj
      exact absurd hrj hr
    · rw [List.get?_eq_none.mpr hge] at hj
      cases hj

/-- The prefix group loop emits a netMono group: starting from an empty
rolling prefix all accumulated networks are empty, and once the prefix is
known every pushed route carries a non empty network. -/
theorem prefixGroupGo_netMono :
    ∀ (bs : List Block) (pfx : String) (acc G : List Route),
      prefixGroupGo pfx acc bs = some G →
      ((pfx = "" ∧ ∀ r ∈ acc, r.network = "") ∨
        (pfx ≠ "" ∧ netMono acc)) →
      netMono G := by
  intro bs
  induction bs with
  | nil =>
      intro pfx acc G hG hinv
      simp only [prefixGroupGo] at hG
      cases hG
      rcases hinv with ⟨_, hall⟩ | ⟨_, hmono⟩
      · exact netMono_of_all_empty acc hall
      · exact hmono
  | cons b bs ih =>
      intro pfx acc G hG hinv
      rcases hb : b with _ | ⟨l0, bt⟩
      · rw [hb] at hG; simp [prefixGroupGo] at hG
      · rw [hb] at hG
        simp only [prefixGroupGo] at hG
        by_cases h0 : strStarts l0 "0001" = true
        · rw [if_pos h0] at hG
          exact ih pfx acc G hG hinv
        · rw [if_neg h0] at hG
          rcases hr : Route.parse (l0 :: bt) with _ | route
          · rw [hr] at hG; cases hG
          · rw [hr] at hG
            by_cases hnet : route.network = ""
            · simp only [hnet, if_pos] at hG
              rcases hn : route.neighbor_id with _ | nb
              · rw [hn] at hG
                exact ih pfx acc G hG hinv
              · rw [hn] at hG
                rcases hinv with ⟨hpfx, hall⟩ | ⟨hpfx, hmono⟩
                · refine ih pfx _ G hG (Or.inl ⟨hpfx, ?_⟩)
                  intro r hrm
                  rcases List.mem_append.mp hrm with hrm | hrm
                  · exact hall r hrm
                  · simp only [List.mem_singleton] at hrm
                    subst hrm
                    simp [hpfx]
                · refine ih pfx _ G hG (Or.inr ⟨hpfx, ?_⟩)
                  refine netMono_append_ne acc _ hmono ?_
                  simpa using hpfx
            · simp only [hnet, if_neg, not_false_iff] at hG
              rcases hn : route.neighbor_id with _ | nb
              · rw [hn] at hG
                refine ih route.network acc G hG (Or.inr ⟨hnet, ?_⟩)
                rcases hinv with ⟨_, hall⟩ | ⟨_, hmono⟩
                · exact netMono_of_all_empty acc hall
                · exact hmono
              · rw [hn] at hG
                refine ih route.network _ G hG (Or.inr ⟨hnet, ?_⟩)
                rcases hinv with ⟨_, hall⟩ | ⟨_, hmono⟩
                · exact netMono_append_ne acc route
                    (netMono_of_all_empty acc hall) hnet
                · exact netMono_append_ne acc route hmono hnet

/-- C7 counterexample: a prefix group produced from a block whose leading
line matches the outer 1007 marker where the first emitted route has an
EMPTY network, and where a later route with an empty parsed network
inherits the rolling prefix 10.0.0.1/32 rather than the network of the
first route of the group. -/
theorem c7_counterexample_first_route_empty_network :
    (PrefixGroup.parse cexRouteBlock).map
      (fun g => g.map (fun r => (r.network, r.neighbor_id)))
      = some [("", some "R1"), ("10.0.0.1/32", some "R2"),
          ("10.0.0.1/32", some "R3")] ∧
    (Route.parse ["1007- unicast [R3 2023-01-01 10:00:00] * (100) q"]).map
      Route.network = some "" ∧
    reIsMatch re_ROUTES_START
      "1007-z unicast [R1 2023-01-01 10:00:00] * (100) q" = true := by
  refine ⟨rfl, rfl, rfl⟩

/-- C7 amended: the first route of a produced PrefixGroup may carry an
empty network (when its header has no parseable prefix), and a route whose
parsed network was empty inherits the most recently parsed non empty
network, not necessarily that of the first route. What holds of every
produced group is that networks are monotone: a route with an empty
network is preceded only by routes with empty networks, so once a network
is known every later route of the group carries a non empty network. -/
theorem c7_prefix_group_networks_monotone (block : Block)
    (G : PrefixGroup) (i j : Nat) (ri rj : Route)
    (hG : PrefixGroup.parse block = some G) (hij : i ≤ j)
    (hi : G.get? i = some ri) (hj : G.get? j = some rj)
    (hrj : rj.network = "") : ri.network = "" := by
  have hmono := prefixGroupGo_netMono
    (bgBlocks (fun l => reIsMatch re_ROUTE_START l) block) "" [] G hG
    (Or.inl ⟨rfl, by simp⟩)
  exact hmono i j ri rj hij hi hj hrj

/-- C7 witness: the monotonicity fact at a concrete two route group in
which both routes have empty networks. -/
theorem c7_prefix_group_networks_monotone_witness :
    ({ neighbor_id := some "R1", network := "", metric := 100,
       age := "2023-01-01 10:00:00", primary := true } : Route).network
      = "" :=
  c7_prefix_group_networks_monotone wRouteBlock
    [{ neighbor_id := some "R1", network := "", metric := 100,
       age := "2023-01-01 10:00:00", primary := true },
     { neighbor_id := some "R2", network := "", metric := 100,
       age := "2023-01-01 10:00:00", primary := true }]
    0 1
    { neighbor_id := some "R1", network := "", metric := 100,
      age := "2023-01-01 10:00:00", primary := true }
    { neighbor_id := some "R2", network := "", metric := 100,
      age := "2023-01-01 10:00:00", primary := true }
    rfl (by decide) rfl rfl rfl

/-! ## Association list lemmas for the counter fold -/

/-- Lookup after an insert at the same key. -/
theorem alistGet_put_same {α : Type} (m : List (String × α)) (k : String)
    (v : α) : alistGet (alistPut m k v) k = some v := by
  induction m with
  | nil => simp [alistPut, alistGet]
  | cons kv rest ih =>
      by_cases hk : kv.1 = k
      · simp [alistPut, hk, alistGet]
      · simp [alistPut, hk, alistGet, ih]

/-- Lookup after an insert at a different key. -/
theorem alistGet_put_other {α : Type} (m : List (String × α)) (k2 k : String)
    (v : α) (hk : k2 ≠ k) : alistGet (alistPut m k2 v) k = alistGet m k := by
  induction m with
  | nil => simp [alistPut, alistGet, hk]
  | cons kv rest ih =>
      by_cases hkv : kv.1 = k2
      · simp [alistPut, hkv, alistGet, hk]
      · simp [alistPut, hkv, alistGet, ih]

/-- A key outside the key list looks up to none. -/
theorem alistGet_eq_none_of_not_mem {α : Type} (m : List (String × α))
    (k : String) (h : k ∉ m.map Prod.fst) : alistGet m k = none := by
  induction m with
  | nil => rfl
  | cons kv rest ih =>
      simp only [List.map_cons, List.mem_cons, not_or] at h
      have hne : ¬ kv.1 = k := fun he => h.1 he.symm
      simp only [alistGet, if_neg hne]
      exact ih h.2

/-- Members of an insert come from the map or are the inserted pair. -/
theorem mem_alistPut {α : Type} (m : List (String × α)) (k : String) (v : α)
    (e : String × α) (he : e ∈ alistPut m k v) : e ∈ m ∨ e = (k, v) := by
  induction m with
  | nil => simpa [alistPut] using he
  | cons kv rest ih =>
      by_cases hk : kv.1 = k
      · have hput : alistPut (kv :: rest) k v = (kv.1, v) :: rest := by
          simp [alistPut, hk]
        rw [hput] at he
        rcases List.mem_cons.mp he with he | he
        · right; rw [he, hk]
        · left; exact List.mem_cons_of_mem kv he
      · have hput : alistPut (kv :: rest) k v = kv :: alistPut rest k v := by
          simp [alistPut, hk]
        rw [hput] at he
        rcases List.mem_cons.mp he with he | he
        · left; rw [he]; exact List.mem_cons_self kv rest
        · rcases ih he with h2 | h2
          · left; exact List.mem_cons_of_mem kv h2
          · right; exact h2

/-- Insert keeps the key list without duplicates. -/
theorem alistPut_keys_nodup {α : Type} (m : List (String × α)) (k : String)
    (v : α) (h : (m.map Prod.fst).Nodup) :
    ((alistPut m k v).map Prod.fst).Nodup := by
  induction m with
  | nil => simp [alistPut]
  | cons kv rest ih =>
      rw [List.map_cons] at h
      rcases List.nodup_cons.mp h with ⟨h1, h2⟩
      by_cases hk : kv.1 = k
      · have hput : alistPut (kv :: rest) k v = (kv.1, v) :: rest := by
          simp [alistPut, hk]
        rw [hput, List.map_cons]
        exact List.nodup_cons.mpr ⟨h1, h2⟩
      · have hput : alistPut (kv :: rest) k v = kv :: alistPut rest k v := by
          simp [alistPut, hk]
        rw [hput, List.map_cons]
        refine List.nodup_cons.mpr ⟨?_, ih h2⟩
        intro hmem
        rcases List.mem_map.mp hmem with ⟨e, hem, hee⟩
        rcases mem_alistPut rest k v e hem with he2 | he2
        · exact h1 (List.mem_map.mpr ⟨e, he2, hee⟩)
        · rw [he2] at hee
          exact hk hee.symm

/-- Members of an in place update come from the map, possibly with the
update applied to their value. -/
theorem mem_alistModify {α : Type} (m : List (String × α)) (k : String)
    (f : α → α) (e : String × α) (he : e ∈ alistModify m k f) :
    e ∈ m ∨ ∃ e0, e0 ∈ m ∧ e = (e0.1, f e0.2) := by
  induction m with
  | nil => simp [alistModify] at he
  | cons kv rest ih =>
      by_cases hk : kv.1 = k
      · have hmod : alistModify (kv :: rest) k f
            = (kv.1, f kv.2) :: rest := by
          simp [alistModify, hk]
        rw [hmod] at he
        rcases List.mem_cons.mp he with he | he
        · right; exact ⟨kv, List.mem_cons_self kv rest, he⟩
        · left; exact List.mem_cons_of_mem kv he
      · have hmod : alistModify (kv :: rest) k f
            = kv :: alistModify rest k f := by
          simp [alistModify, hk]
        rw [hmod] at he
        rcases List.mem_cons.mp he with he | he
        · left; rw [he]; exact List.mem_cons_self kv rest
        · rcases ih he with h2 | ⟨e0, he0, hee⟩
          · left; exact List.mem_cons_of_mem kv h2
          · right; exact ⟨e0, List.mem_cons_of_mem kv he0, hee⟩

/-- Members of an ensure come from the map or are the inserted default. -/
theorem mem_alistEnsure {α : Type} (m : List (String × α)) (k : String)
    (d : α) (e : String × α) (he : e ∈ alistEnsure m k d) :
    e ∈ m ∨ e = (k, d) := by
  by_cases hk : alistHas m k
  · simp only [alistEnsure, hk, if_pos] at he
    exact Or.inl he
  · simp only [alistEnsure, hk, if_neg, not_false_iff] at he
    rcases List.mem_append.mp he with he | he
    · exact Or.inl he
    · exact Or.inr (by simpa using he)

/-! ## The counter fold computes the modular sum -/

/-- Appending a fresh binding makes it visible at its key. -/
theorem alistGet_append_absent {α : Type} (t : List (String × α))
    (k : String) (v : α) (hg : alistGet t k = none) :
    alistGet (t ++ [(k, v)]) k = some v := by
  induction t with
  | nil => simp [alistGet]
  | cons kv rest ih =>
      simp only [alistGet] at hg
      by_cases hk : kv.1 = k
      · rw [if_pos hk] at hg; cases hg
      · rw [if_neg hk] at hg
        simpa [alistGet, hk] using ih hg

/-- Appending a binding at a different key is invisible. -/
theorem alistGet_append_other {α : Type} (t : List (String × α))
    (k2 k : String) (v : α) (hk : k2 ≠ k) :
    alistGet (t ++ [(k2, v)]) k = alistGet t k := by
  induction t with
  | nil => simp [alistGet, hk]
  | cons kv rest ih =>
      by_cases hkv : kv.1 = k
      · simp [alistGet, hkv]
      · simp [alistGet, hkv, ih]

/-- A successful lookup is a member. -/
theorem alistGet_mem {α : Type} (t : List (String × α)) (k : String)
    (v : α) (hg : alistGet t k = some v) : (k, v) ∈ t := by
  induction t with
  | nil => cases hg
  | cons kv rest ih =>
      simp only [alistGet] at hg
      by_cases hk : kv.1 = k
      · rw [if_pos hk] at hg
        cases hg
        rw [← hk]
        exact List.mem_cons_self kv rest
      · rw [if_neg hk] at hg
        exact List.mem_cons_of_mem kv (ih hg)

/-- A present lookup with default is below 2^32 when values are bounded,
and an absent one is 0. -/
theorem alistGetD_lt (t : RoutesCount) (k : String)
    (ht : ∀ e ∈ t, e.2 < 2 ^ 32) : alistGetD t k 0 < 2 ^ 32 := by
  rcases hg : alistGet t k with _ | v
  · simp [alistGetD, hg]
  · have := ht (k, v) (alistGet_mem t k v hg)
    simpa [alistGetD, hg] using this

/-- addCount keeps every stored count a u32 value. -/
theorem addCount_bounded (t : RoutesCount) (k : String) (c : Nat)
    (ht : ∀ e ∈ t, e.2 < 2 ^ 32) (hc : c < 2 ^ 32) :
    ∀ e ∈ addCount t k c, e.2 < 2 ^ 32 := by
  intro e he
  unfold addCount at he
  rcases hg : alistGet t k with _ | v
  · rw [hg] at he
    rcases List.mem_append.mp he with he | he
    · exact ht e he
    · simp only [List.mem_singleton] at he
      rw [he]
      exact hc
  · rw [hg] at he
    rcases mem_alistPut t k _ e he with h2 | h2
    · exact ht e h2
    · rw [h2]
      exact Nat.mod_lt _ (by norm_num)

/-- Looking up the touched key after addCount adds the count modulo 2^32. -/
theorem addCount_getD_same (t : RoutesCount) (k : String) (c : Nat)
    (ht : ∀ e ∈ t, e.2 < 2 ^ 32) (hc : c < 2 ^ 32) :
    alistGetD (addCount t k c) k 0 = (alistGetD t k 0 + c) % 2 ^ 32 := by
  unfold addCount
  rcases hg : alistGet t k with _ | v
  · simp only [alistGetD, hg, alistGet_append_absent t k c hg,
      Option.getD_some, Option.getD_none]
    omega
  · simp [alistGetD, alistGet_put_same, hg]

/-- Looking up an untouched key after addCount is unchanged. -/
theorem addCount_getD_other (t : RoutesCount) (k2 k : String) (c : Nat)
    (hk : k2 ≠ k) :
    alistGetD (addCount t k2 c) k 0 = alistGetD t k 0 := by
  unfold addCount
  rcases hg : alistGet t k2 with _ | v
  · simp [alistGetD, alistGet_append_other t k2 k c hk]
  · simp [alistGetD, alistGet_put_other t k2 k _ hk]

/-- Folding one channel routes count into the running totals adds its
value at every label, modulo 2^32, provided the channel counts are well
formed and the totals are u32 values; the resulting totals are again u32
values. -/
theorem rcFold_getD (k : String) :
    ∀ (rc : RoutesCount) (tot : RoutesCount), GoodRC rc →
      (∀ e ∈ tot, e.2 < 2 ^ 32) →
      alistGetD (rc.foldl (fun t e => addCount t e.1 e.2) tot) k 0
          = (alistGetD tot k 0 + alistGetD rc k 0) % 2 ^ 32 ∧
        (∀ e ∈ rc.foldl (fun t e => addCount t e.1 e.2) tot,
          e.2 < 2 ^ 32) := by
  intro rc
  induction rc with
  | nil =>
      intro tot _ htot
      refine ⟨?_, htot⟩
      have h0 : alistGetD ([] : RoutesCount) k 0 = 0 := rfl
      rw [List.foldl_nil, h0, Nat.add_zero,
        Nat.mod_eq_of_lt (alistGetD_lt tot k htot)]
  | cons e rest ih =>
      intro tot hrc htot
      obtain ⟨hnd, hbound⟩ := hrc
      rw [List.map_cons] at hnd
      rcases List.nodup_cons.mp hnd with ⟨hnd1, hnd2⟩
      have hc : e.2 < 2 ^ 32 := hbound e (List.mem_cons_self e rest)
      have htot2 := addCount_bounded tot e.1 e.2 htot hc
      have hrest : GoodRC rest :=
        ⟨hnd2, fun x hx => hbound x (List.mem_cons_of_mem e hx)⟩
      obtain ⟨ih1, ih2⟩ := ih (addCount tot e.1 e.2) hrest htot2
      rw [List.foldl_cons]
      refine ⟨?_, ih2⟩
      rw [ih1]
      by_cases hk : e.1 = k
      · have hsame := addCount_getD_same tot e.1 e.2 htot hc
        rw [hk] at hsame
        have hro : alistGetD rest k 0 = 0 := by
          have hnm : k ∉ rest.map Prod.fst := by rw [← hk]; exact hnd1
          simp [alistGetD, alistGet_eq_none_of_not_mem rest k hnm]
        have hhead : alistGetD (e :: rest) k 0 = e.2 := by
          simp [alistGetD, alistGet, hk]
        rw [hk, hsame, hro, Nat.add_zero, hhead,
          Nat.mod_mod_of_dvd _ (dvd_refl _)]
      · have hhead : alistGetD (e :: rest) k 0 = alistGetD rest k 0 := by
          simp [alistGetD, alistGet, hk]
        rw [hhead, addCount_getD_other tot e.1 k e.2 hk]

/-- Folding every channel of the map accumulates the modular sum of the
per channel counts at every label. -/
theorem chansFold_getD (k : String) :
    ∀ (chans : ChannelMap) (tot : RoutesCount), ChanInv chans →
      (∀ e ∈ tot, e.2 < 2 ^ 32) →
      alistGetD
          (chans.foldl (fun tot kv => kv.2.routes_count.foldl
            (fun t e => addCount t e.1 e.2) tot) tot) k 0
        = (alistGetD tot k 0
            + (chans.map
                (fun kv => alistGetD kv.2.routes_count k 0)).sum) % 2 ^ 32 := by
  intro chans
  induction chans with
  | nil =>
      intro tot _ htot
      simp only [List.foldl_nil, List.map_nil, List.sum_nil, Nat.add_zero]
      exact (Nat.mod_eq_of_lt (alistGetD_lt tot k htot)).symm
  | cons ch rest ih =>
      intro tot hinv htot
      have hch : GoodRC ch.2.routes_count :=
        hinv ch (List.mem_cons_self ch rest)
      obtain ⟨h1, h2⟩ := rcFold_getD k ch.2.routes_count tot hch htot
      have hrest : ChanInv rest :=
        fun kv hkv => hinv kv (List.mem_cons_of_mem ch hkv)
      rw [List.foldl_cons, ih _ hrest h2, h1, List.map_cons, List.sum_cons]
      rw [Nat.add_mod, Nat.mod_mod_of_dvd _ (dvd_refl _), ← Nat.add_mod,
        Nat.add_assoc]

/-! ## The protocol parser preserves the channel invariant and the
compatibility attributes stay at their defaults until finalisation -/

/-- A parsed u32 is a u32 value. -/
theorem parseU32_lt (s : List Char) (v : Nat) (h : parseU32 s = some v) :
    v < 2 ^ 32 := by
  unfold parseU32 at h
  dsimp only at h
  split_ifs at h with h1 h2 h3
  all_goals cases h
  exact h3

/-- A parsed segment carries a u32 value. -/
theorem routesCountSeg_lt (seg : List Char) (e : String × Nat)
    (h : routesCountSeg seg = some e) : e.2 < 2 ^ 32 := by
  unfold routesCountSeg at h
  rcases hsp : splitWhitespace (listTrim seg) with _ | ⟨t0, tl⟩
  · rw [hsp] at h; cases h
  · rcases tl with _ | ⟨t1, rest⟩
    · rw [hsp] at h; cases h
    · rw [hsp] at h
      cases h
      rcases hu : parseU32 t0 with _ | v
      · simp only [hu, Option.getD_none]
        norm_num
      · simp only [hu, Option.getD_some]
        exact parseU32_lt t0 v hu

/-- Success of mapM gives every output an input it was parsed from. -/
theorem mapM_mem_of_mem {α β : Type} (f : α → Option β) :
    ∀ (l : List α) (out : List β), l.mapM f = some out →
      ∀ y ∈ out, ∃ x, x ∈ l ∧ f x = some y := by
  intro l
  induction l with
  | nil =>
      intro out h y hy
      simp only [List.mapM_nil, Option.pure_def, Option.some.injEq] at h
      rw [← h] at hy
      cases hy
  | cons a l ih =>
      intro out h y hy
      rw [List.mapM_cons] at h
      rcases hfa : f a with _ | b <;> rw [hfa] at h
      · cases h
      · rcases hrest : l.mapM f with _ | out2 <;> rw [hrest] at h
        · cases h
        · have h2 : b :: out2 = out := by simpa using h
          rw [← h2] at hy
          rcases List.mem_cons.mp hy with hy | hy
          · exact ⟨a, List.mem_cons_self a l, by rw [hfa, hy]⟩
          · rcases ih out2 hrest y hy with ⟨x, hx1, hx2⟩
            exact ⟨x, List.mem_cons_of_mem a hx1, hx2⟩

/-- Collecting bounded pairs with insert or replace yields a well formed
map. -/
theorem foldPut_GoodRC :
    ∀ (l : List (String × Nat)) (m : RoutesCount), GoodRC m →
      (∀ e ∈ l, e.2 < 2 ^ 32) →
      GoodRC (l.foldl (fun m kv => alistPut m kv.1 kv.2) m) := by
  intro l
  induction l with
  | nil => intro m hm _; simpa using hm
  | cons a l ih =>
      intro m hm hb
      rw [List.foldl_cons]
      refine ih (alistPut m a.1 a.2) ?_ (fun e he => hb e (List.mem_cons_of_mem a he))
      constructor
      · exact alistPut_keys_nodup m a.1 a.2 hm.1
      · intro e he
        rcases mem_alistPut m a.1 a.2 e he with h2 | h2
        · exact hm.2 e h2
        · rw [h2]
          exact hb a (List.mem_cons_self a l)

/-- RoutesCount::parse only ever produces well formed maps. -/
theorem routesCountParse_GoodRC (s : String) (rc : RoutesCount)
    (h : RoutesCount.parse s = some rc) : GoodRC rc := by
  unfold RoutesCount.parse at h
  rcases hm : (splitOnC ',' s.data).mapM routesCountSeg with _ | l <;>
    rw [hm] at h
  · cases h
  · have h2 : (l.foldl (fun m kv => alistPut m kv.1 kv.2) []) = rc := by
      simpa using h
    rw [← h2]
    refine foldPut_GoodRC l [] ⟨List.nodup_nil, by simp⟩ ?_
    intro e he
    rcases mapM_mem_of_mem routesCountSeg _ l hm e he with ⟨x, _, hx⟩
    exact routesCountSeg_lt x e hx

/-- Updating one channel with a function that respects well formed counts
preserves the channel invariant. -/
theorem chanInv_modify (m : ChannelMap) (ch : String) (f : Channel → Channel)
    (hm : ChanInv m)
    (hf : ∀ c, GoodRC c.routes_count → GoodRC ((f c).routes_count)) :
    ChanInv (alistModify m ch f) := by
  intro kv hkv
  rcases mem_alistModify m ch f kv hkv with h2 | ⟨e0, he0, hee⟩
  · exact hm kv h2
  · rw [hee]
    exact hf e0.2 (hm e0 he0)

/-- Ensuring a channel preserves the channel invariant. -/
theorem chanInv_ensure (m : ChannelMap) (ch : String) (hm : ChanInv m) :
    ChanInv (alistEnsure m ch Channel.init) := by
  intro kv hkv
  rcases mem_alistEnsure m ch Channel.init kv hkv with h2 | h2
  · exact hm kv h2
  · rw [h2]
    exact ⟨by simp [Channel.init], by simp [Channel.init]⟩

/-- The key dispatch of parse_channel_meta never writes table or
peer_table at protocol level and preserves the channel invariant. -/
theorem channel_meta_apply_inv (p : Protocol) (ch key val : String)
    (p2 : Protocol × PState) (h : channel_meta_apply p ch key val = some p2)
    (hp : ChanInv p.channels) :
    p2.1.table = p.table ∧ p2.1.peer_table = p.peer_table ∧
      ChanInv p2.1.channels := by
  unfold channel_meta_apply at h
  dsimp only at h
  by_cases k1 : key = "state"
  · rw [if_pos k1] at h
    cases h
    exact ⟨rfl, rfl, chanInv_modify _ ch _ hp (fun c hc => hc)⟩
  · rw [if_neg k1] at h
    by_cases k2 : key = "import state"
    · rw [if_pos k2] at h
      cases h
      exact ⟨rfl, rfl, chanInv_modify _ ch _ hp (fun c hc => hc)⟩
    · rw [if_neg k2] at h
      by_cases k3 : key = "export state"
      · rw [if_pos k3] at h
        cases h
        exact ⟨rfl, rfl, chanInv_modify _ ch _ hp (fun c hc => hc)⟩
      · rw [if_neg k3] at h
        by_cases k4 : key = "table"
        · rw [if_pos k4] at h
          cases h
          exact ⟨rfl, rfl, chanInv_modify _ ch _ hp (fun c hc => hc)⟩
        · rw [if_neg k4] at h
          by_cases k5 : key = "peer table"
          · rw [if_pos k5] at h
            cases h
            exact ⟨rfl, rfl, chanInv_modify _ ch _ hp (fun c hc => hc)⟩
          · rw [if_neg k5] at h
            by_cases k6 : key = "preference"
            · rw [if_pos k6] at h
              rcases hu : parseU32 val.data with _ | v <;> rw [hu] at h
              · cases h
              · cases h
                exact ⟨rfl, rfl, chanInv_modify _ ch _ hp (fun c hc => hc)⟩
            · rw [if_neg k6] at h
              by_cases k7 : key = "input filter"
              · rw [if_pos k7] at h
                cases h
                exact ⟨rfl, rfl, chanInv_modify _ ch _ hp (fun c hc => hc)⟩
              · rw [if_neg k7] at h
                by_cases k8 : key = "output filter"
                · rw [if_pos k8] at h
                  cases h
                  exact ⟨rfl, rfl, chanInv_modify _ ch _ hp (fun c hc => hc)⟩
                · rw [if_neg k8] at h
                  by_cases k9 : key = "routes"
                  · rw [if_pos k9] at h
                    rcases hrc : RoutesCount.parse val with _ | rc <;> rw [hrc] at h
                    · cases h
                    · cases h
                      exact ⟨rfl, rfl, chanInv_modify _ ch _ hp
                        (fun c _ => routesCountParse_GoodRC _ rc hrc)⟩
                  · rw [if_neg k9] at h
                    by_cases k10 : key = "bgp next hop"
                    · rw [if_pos k10] at h
                      cases h
                      exact ⟨rfl, rfl, chanInv_modify _ ch _ hp (fun c hc => hc)⟩
                    · rw [if_neg k10] at h
                      by_cases k11 : key = "route change stats"
                      · rw [if_pos k11] at h
                        cases h
                        exact ⟨rfl, rfl, hp⟩
                      · rw [if_neg k11] at h
                        cases h
                        exact ⟨rfl, rfl, hp⟩

/-- parse_channel_meta: the protocol table and peer_table are untouched and
the channel invariant is preserved. -/
theorem parse_channel_meta_inv (p : Protocol) (ch : String) (line : String)
    (p2 : Protocol × PState) (h : parse_channel_meta p ch line = some p2)
    (hp : ChanInv p.channels) :
    p2.1.table = p.table ∧ p2.1.peer_table = p.peer_table ∧
      ChanInv p2.1.channels := by
  have hens := chanInv_ensure p.channels ch hp
  unfold parse_channel_meta at h
  dsimp only at h
  rcases hcap : reCaptures re_KEY_VALUE line with _ | caps <;>
    rw [hcap] at h <;> dsimp only at h
  · cases h
    exact ⟨rfl, rfl, hens⟩
  · exact channel_meta_apply_inv
      { p with channels := alistEnsure p.channels ch Channel.init }
      ch _ _ p2 h hens

/-- The key dispatch of parse_channel_route_change_stats never writes
table or peer_table at protocol level and preserves the channel
invariant. -/
theorem channel_rcs_apply_inv (p : Protocol) (ch : String)
    (fields : List String) (key : String) (val : List Char)
    (hp : ChanInv p.channels) :
    (channel_rcs_apply p ch fields key val).1.table = p.table ∧
    (channel_rcs_apply p ch fields key val).1.peer_table = p.peer_table ∧
    ChanInv (channel_rcs_apply p ch fields key val).1.channels := by
  unfold channel_rcs_apply
  dsimp only
  split_ifs <;>
    first
      | exact ⟨rfl, rfl, chanInv_modify _ ch _ hp (fun c hc => hc)⟩
      | exact ⟨rfl, rfl, hp⟩

/-- parse_channel_route_change_stats: table, peer_table and the channel
invariant are preserved. -/
theorem parse_channel_rcs_inv (p : Protocol) (ch : String)
    (fields : List String) (line : String) (hp : ChanInv p.channels) :
    (parse_channel_route_change_stats p ch fields line).1.table = p.table ∧
    (parse_channel_route_change_stats p ch fields line).1.peer_table
      = p.peer_table ∧
    ChanInv (parse_channel_route_change_stats p ch fields line).1.channels := by
  have hens := chanInv_ensure p.channels ch hp
  unfold parse_channel_route_change_stats
  dsimp only
  rcases hcap : reCaptures re_KEY_VALUE (String.mk (listLower line.data))
    with _ | caps
  · exact ⟨rfl, rfl, hens⟩
  · exact channel_rcs_apply_inv
      { p with channels := alistEnsure p.channels ch Channel.init }
      ch fields _ _ hens

/-- One parse step never writes the protocol level table or peer_table and
preserves the channel invariant. -/
theorem proto_parse_line_inv (p : Protocol) (st : PState) (line : String)
    (fb : Bool) (p2 : Protocol × PState)
    (h : proto_parse_line p st line fb = some p2)
    (hp : ChanInv p.channels) :
    p2.1.table = p.table ∧ p2.1.peer_table = p.peer_table ∧
      ChanInv p2.1.channels := by
  cases st with
  | start =>
      simp only [proto_parse_line, Option.some.injEq] at h
      rw [← h]
      unfold parse_protocol_header
      split
      · exact ⟨rfl, rfl, hp⟩
      · rcases reCaptures re_PROTOCOL_HEADER line with _ | caps
        · exact ⟨rfl, rfl, hp⟩
        · dsimp only
          split <;> exact ⟨rfl, rfl, hp⟩
  | meta =>
      simp only [proto_parse_line, Option.some.injEq] at h
      rw [← h]
      unfold parse_protocol_meta
      rcases parse_channel_header line with _ | chn
      · rcases reCaptures re_KEY_VALUE line with _ | caps
        · exact ⟨rfl, rfl, hp⟩
        · dsimp only
          split <;> exact ⟨rfl, rfl, hp⟩
      · exact ⟨rfl, rfl, hp⟩
  | bgpState =>
      simp only [proto_parse_line] at h
      unfold parse_bgp_state at h
      rcases hch : parse_channel_header line with _ | chn <;> rw [hch] at h
      · rcases hcap : reCaptures re_KEY_VALUE line with _ | caps <;>
          rw [hcap] at h
        · cases h
          exact ⟨rfl, rfl, hp⟩
        · dsimp only at h
          split_ifs at h with k1 k2
          · cases h
            exact ⟨rfl, rfl, hp⟩
          · rcases hu : parseU32 ((capS caps 2).getD "").data with _ | v <;>
              rw [hu] at h
            · cases h
            · cases h
              exact ⟨rfl, rfl, hp⟩
          · cases h
            exact ⟨rfl, rfl, hp⟩
      · cases h
        exact ⟨rfl, rfl, hp⟩
  | channel ch sec =>
      simp only [proto_parse_line] at h
      unfold parse_channel at h
      rcases hch : parse_channel_header line with _ | chn <;> rw [hch] at h
      · cases sec with
        | meta => exact parse_channel_meta_inv p ch line p2 h hp
        | routeChangeStats fields =>
            simp only [Option.some.injEq] at h
            rw [← h]
            exact parse_channel_rcs_inv p ch fields line hp
      · cases h
        exact ⟨rfl, rfl, hp⟩

/-- The whole fold over the block lines never writes table or peer_table
and preserves the channel invariant. -/
theorem proto_fold_inv :
    ∀ (lines : List String) (fb : Bool) (st : Protocol × PState)
      (res : Protocol × PState),
      List.foldlM (fun (ps : Protocol × PState) line =>
        proto_parse_line ps.1 ps.2 line fb) st lines = some res →
      ChanInv st.1.channels →
      res.1.table = st.1.table ∧ res.1.peer_table = st.1.peer_table ∧
        ChanInv res.1.channels := by
  intro lines
  induction lines with
  | nil =>
      intro fb st res h hst
      simp only [List.foldlM_nil, Option.pure_def, Option.some.injEq] at h
      rw [← h]
      exact ⟨rfl, rfl, hst⟩
  | cons l rest ih =>
      intro fb st res h hst
      rw [List.foldlM_cons] at h
      rcases hstep : proto_parse_line st.1 st.2 l fb with _ | mid <;>
        rw [hstep] at h
      · cases h
      · rw [show ((some mid >>= fun ps =>
            List.foldlM (fun (ps : Protocol × PState) line =>
              proto_parse_line ps.1 ps.2 line fb) ps rest))
            = List.foldlM (fun (ps : Protocol × PState) line =>
              proto_parse_line ps.1 ps.2 line fb) mid rest from rfl] at h
        obtain ⟨h1, h2, h3⟩ := proto_parse_line_inv st.1 st.2 l fb mid
          hstep hst
        obtain ⟨g1, g2, g3⟩ := ih fb mid res h h3
        exact ⟨g1.trans h1, g2.trans h2, g3⟩

/-! ## C9 -/

set_option maxRecDepth 100000 in
/-- C9 counterexample: the same two channel block parsed with the
insertion iteration order yields table master4 and peer table T_R1_4, but
with the reversed iteration order (also a permutation of the map, which is
all the Rust HashMap guarantees) it yields master6 and T_R1_6: the
compatibility attributes do not always come from the first channel in
insertion order, and the parse result is not a function of the block
alone. -/
theorem c9_counterexample_table_depends_on_iteration_order :
    (Protocol.parse cexProtocolBlock false).map
      (fun p => (p.table, p.peer_table)) = some ("master4", "T_R1_4") ∧
    (Protocol.parseOrd List.reverse cexProtocolBlock false).map
      (fun p => (p.table, p.peer_table)) = some ("master6", "T_R1_6") ∧
    ("master6", "T_R1_6") ≠ ("master4", "T_R1_4") ∧
    (Protocol.parse cexProtocolBlock false).map
      (fun p => p.channels.map Prod.fst) = some ["ipv4", "ipv6"] := by
  refine ⟨rfl, rfl, by decide, rfl⟩

/-- C9 amended: for every iteration order of the channels map (any
permutation, which is all the Rust HashMap guarantees), a successfully
parsed protocol takes table and peer_table together from one member
channel of its map, the first in that iteration order; with no channel
they stay empty. With a single channel the attributes are deterministic;
with several they depend on the unspecified iteration order, which need
not be insertion order. -/
theorem c9_table_peer_table_from_one_channel
    (reorder : ChannelMap → ChannelMap)
    (hperm : ∀ l : ChannelMap, (reorder l).Perm l) (block : Block)
    (fb : Bool) :
    match Protocol.parseOrd reorder block fb with
    | none => True
    | some p =>
        (p.channels = [] ∧ p.table = "" ∧ p.peer_table = "") ∨
        ∃ kv, kv ∈ p.channels ∧ p.table = kv.2.table ∧
          p.peer_table = kv.2.peer_table := by
  rcases hf : List.foldlM (fun (ps : Protocol × PState) line =>
      proto_parse_line ps.1 ps.2 line fb) (({} : Protocol), PState.start)
      block with _ | ps
  · simp [Protocol.parseOrd, hf]
  · obtain ⟨ht, hpt, hch⟩ := proto_fold_inv block fb _ ps hf
      (fun kv hkv => absurd hkv (List.not_mem_nil kv))
    have hres : Protocol.parseOrd reorder block fb
        = some (finalize_attributes reorder
            (finalize_counters reorder ps.1)) := by
      simp [Protocol.parseOrd, hf]
    rw [hres]
    dsimp only
    have hqch : (finalize_counters reorder ps.1).channels
        = ps.1.channels := rfl
    rcases hro : reorder (finalize_counters reorder ps.1).channels
      with _ | ⟨kv, rest⟩
    · have hfa : finalize_attributes reorder
          (finalize_counters reorder ps.1)
          = finalize_counters reorder ps.1 := by
        unfold finalize_attributes
        rw [hro]
      rw [hfa]
      left
      have hnil : (finalize_counters reorder ps.1).channels = [] := by
        have hp2 := hperm (finalize_counters reorder ps.1).channels
        rw [hro] at hp2
        exact (List.Perm.nil_eq hp2).symm
      refine ⟨hnil, ?_, ?_⟩
      · exact (show (finalize_counters reorder ps.1).table
          = ps.1.table from rfl).trans ht
      · exact (show (finalize_counters reorder ps.1).peer_table
          = ps.1.peer_table from rfl).trans hpt
    · have hfa : finalize_attributes reorder
          (finalize_counters reorder ps.1)
          = { finalize_counters reorder ps.1 with
              table := kv.2.table, peer_table := kv.2.peer_table } := by
        unfold finalize_attributes
        rw [hro]
      rw [hfa]
      right
      refine ⟨kv, ?_, rfl, rfl⟩
      have hmem : kv ∈ reorder (finalize_counters reorder ps.1).channels := by
        rw [hro]
        exact List.mem_cons_self kv rest
      exact (hperm (finalize_counters reorder ps.1).channels).subset hmem

set_option maxRecDepth 100000 in
/-- C9 witness: the amended statement with the reversed iteration order on
the two channel block. -/
theorem c9_table_peer_table_from_one_channel_witness :
    match Protocol.parseOrd List.reverse cexProtocolBlock false with
    | none => True
    | some p =>
        (p.channels = [] ∧ p.table = "" ∧ p.peer_table = "") ∨
        ∃ kv, kv ∈ p.channels ∧ p.table = kv.2.table ∧
          p.peer_table = kv.2.peer_table :=
  c9_table_peer_table_from_one_channel List.reverse
    (fun l => List.reverse_perm l) cexProtocolBlock false

/-! ## C6 -/

/-- C6: for every successfully parsed protocol, under every iteration
order of the channels map, the summary routes value at every label equals
the element-wise u32 sum (the sum modulo 2^32, which is how the u32
counters add) of the channels routes_count at that label, with absent
labels counting zero. -/
theorem c6_protocol_routes_sum (reorder : ChannelMap → ChannelMap)
    (hperm : ∀ l : ChannelMap, (reorder l).Perm l) (block : Block)
    (fb : Bool) (k : String) :
    match Protocol.parseOrd reorder block fb with
    | none => True
    | some p =>
        alistGetD p.routes k 0
          = ((p.channels.map
              (fun kv => alistGetD kv.2.routes_count k 0)).sum) % 2 ^ 32 := by
  rcases hf : List.foldlM (fun (ps : Protocol × PState) line =>
      proto_parse_line ps.1 ps.2 line fb) (({} : Protocol), PState.start)
      block with _ | ps
  · simp [Protocol.parseOrd, hf]
  · obtain ⟨ht, hpt, hch⟩ := proto_fold_inv block fb _ ps hf
      (fun kv hkv => absurd hkv (List.not_mem_nil kv))
    have hres : Protocol.parseOrd reorder block fb
        = some (finalize_attributes reorder
            (finalize_counters reorder ps.1)) := by
      simp [Protocol.parseOrd, hf]
    rw [hres]
    dsimp only
    have hfaroutes :
        (finalize_attributes reorder (finalize_counters reorder ps.1)).routes
          = (finalize_counters reorder ps.1).routes ∧
        (finalize_attributes reorder
            (finalize_counters reorder ps.1)).channels
          = (finalize_counters reorder ps.1).channels := by
      unfold finalize_attributes
      rcases reorder (finalize_counters reorder ps.1).channels
        with _ | ⟨kv, rest⟩ <;> exact ⟨rfl, rfl⟩
    rw [hfaroutes.1, hfaroutes.2]
    have hroutes : (finalize_counters reorder ps.1).routes
        = (reorder ps.1.channels).foldl
          (fun tot kv => kv.2.routes_count.foldl
            (fun t e => addCount t e.1 e.2) tot) [] := rfl
    have hinvr : ChanInv (reorder ps.1.channels) :=
      fun kv hkv => hch kv ((hperm ps.1.channels).subset hkv)
    have hsum := chansFold_getD k (reorder ps.1.channels) [] hinvr
      (fun e he => absurd he (List.not_mem_nil e))
    have hperm2 : ((reorder ps.1.channels).map
        (fun kv => alistGetD kv.2.routes_count k 0)).sum
        = (ps.1.channels.map
            (fun kv => alistGetD kv.2.routes_count k 0)).sum :=
      List.Perm.sum_eq ((hperm ps.1.channels).map _)
    rw [hroutes, hsum, hperm2]
    have h0 : alistGetD ([] : RoutesCount) k 0 = 0 := rfl
    rw [h0, Nat.zero_add]
    rfl

set_option maxRecDepth 100000 in
/-- C6 witness: the sum property at the two channel block with the
insertion iteration order and the label imported. -/
theorem c6_protocol_routes_sum_witness :
    match Protocol.parseOrd (fun m => m) cexProtocolBlock false with
    | none => True
    | some p =>
        alistGetD p.routes "imported" 0
          = ((p.channels.map
              (fun kv =>
                alistGetD kv.2.routes_count "imported" 0)).sum) % 2 ^ 32 :=
  c6_protocol_routes_sum (fun m => m) (fun l => List.Perm.refl l)
    cexProtocolBlock false "imported"

end LW
